import Mathlib

/-!
# Verification of the climbing-fall-simulation physics core

Shallow embedding of the physics engine of the climbing fall simulation
(`src/unnamed/part_004`, `src/resources/vec.js`, `src/resources/layout.js`,
`src/unnamed/part_002`, `src/resources/storage-manager.js`) over the real
numbers, together with proofs and refutations of the frozen claims about it.

JavaScript numbers are modelled as real numbers (the spec states the
invariants "exactly in real arithmetic, up to floating-point error in the
implementation"); mutation is modelled by explicit state passing.  Object
references shared between rope segments and the rope's body list are
modelled arena-style: the rope state holds the list of joint bodies, and
segment `i` implicitly has `bodyA = bodies[i]`, `bodyB = bodies[i+1]`,
exactly the correspondence that `Rope.removeRopeSegment` /
`Rope.insertRopeSegment` maintain in the source.
-/

namespace ClimbSim

/-- `PHYSICS_WORLD.EPS` (src/unnamed/part_004 line 56): comparison constant. -/
noncomputable def EPS : ℝ := 1 / 10 ^ 10

/-! ## Vectors (src/resources/vec.js, class V) -/

/-- Class `V` of src/resources/vec.js: a 3D vector with a cached
"is normalized" flag. -/
structure Vec where
  x : ℝ
  y : ℝ
  z : ℝ
  isNormalized : Bool := false

namespace Vec

/-- `V.plus` (vec.js line 61). -/
noncomputable def plus (a b : Vec) : Vec := ⟨a.x + b.x, a.y + b.y, a.z + b.z, false⟩

/-- `V.minus` (vec.js line 70). -/
noncomputable def minus (a b : Vec) : Vec := ⟨a.x - b.x, a.y - b.y, a.z - b.z, false⟩

/-- `V.times` (vec.js line 79). -/
noncomputable def times (a : Vec) (s : ℝ) : Vec := ⟨a.x * s, a.y * s, a.z * s, false⟩

/-- `V.normsq` (vec.js line 96). -/
noncomputable def normsq (a : Vec) : ℝ :=
  if a.isNormalized then 1 else a.x * a.x + a.y * a.y + a.z * a.z

/-- `V.norm` (vec.js line 87); `Math.hypot` is the euclidean norm. -/
noncomputable def norm (a : Vec) : ℝ :=
  if a.isNormalized then 1 else Real.sqrt (a.x * a.x + a.y * a.y + a.z * a.z)

/-- `V.dot` (vec.js line 106). -/
noncomputable def dot (a b : Vec) : ℝ := a.x * b.x + a.y * b.y + a.z * b.z

/-- `V.copy` (vec.js line 131): a fresh vector with the same coordinates
(the `isNormalized` flag is not copied: the constructor sets it to false). -/
def copy (a : Vec) : Vec := ⟨a.x, a.y, a.z, false⟩

/-- `V.normalize` (vec.js lines 139-144): the zero vector (and an
already-normalized vector) is returned as a plain copy, every other vector
is scaled by the reciprocal of its norm and flagged as normalized. -/
noncomputable def normalize (a : Vec) : Vec :=
  if (a.x = 0 ∧ a.y = 0 ∧ a.z = 0) ∨ a.isNormalized then a.copy
  else { a.times (1 / a.norm) with isNormalized := true }

/-- The zero vector `new V(0, 0, 0)`. -/
def zero : Vec := ⟨0, 0, 0, false⟩

end Vec

/-! ## Bodies (src/unnamed/part_004, class Body) -/

/-- Class `Body` of src/unnamed/part_004 (lines 734-892): a point mass.
Drawing-only fields (`drawingColor`, `drawingRadius`), the id counter and
`lastGravityVector` are omitted; they play no role in the claims below. -/
structure Body where
  pos : Vec
  velocity : Vec
  appliedForces : Vec
  mass : ℝ
  velocityDamping : ℝ
  frictionCoefficient : ℝ
  maxForce : ℝ
  currentAveragedForce : ℝ
  runningForces : List ℝ
  runningTimeDeltas : List ℝ
  runningTimeSum : ℝ
  runningAvgForce : ℝ
  time : ℝ
  forceAvgWindow : ℝ

instance : Inhabited Body :=
  ⟨⟨Vec.zero, Vec.zero, Vec.zero, 0, 1, 0.125, 0, 0, [], [], 0, 0, 0, 0.05⟩⟩

namespace Body

/-- The `Body` constructor (part_004 lines 743-784): position from the
given coordinates, velocity and forces zero, `velocityDamping = 1`,
`frictionCoefficient = 0.125`, empty force-averaging window of 0.05 s. -/
def mk' (x y z mass : ℝ) : Body :=
  { pos := ⟨x, y, z, false⟩
    velocity := Vec.zero
    appliedForces := Vec.zero
    mass := mass
    velocityDamping := 1
    frictionCoefficient := 0.125
    maxForce := 0
    currentAveragedForce := 0
    runningForces := []
    runningTimeDeltas := []
    runningTimeSum := 0
    runningAvgForce := 0
    time := 0
    forceAvgWindow := 0.05 }

/-- `Body.clearForces` (part_004 line 789). -/
def clearForces (b : Body) : Body := { b with appliedForces := ⟨0, 0, 0, false⟩ }

/-- `Body.applyForce` (part_004 line 797). -/
noncomputable def applyForce (b : Body) (f : Vec) : Body :=
  { b with appliedForces := b.appliedForces.plus f }

/-- `Body.applyGravity` (part_004 line 805). -/
noncomputable def applyGravity (b : Body) (f : Vec) : Body :=
  { b with appliedForces := b.appliedForces.plus (f.times b.mass) }

/-- The `while` loop of `Body.timeStep` (part_004 lines 826-831) that
evicts entries older than the averaging window from the front of the
deques; it runs as long as `runningTimeSum - runningTimeDeltas[0]` still
covers the window.  Arguments and results: time-delta deque, force deque,
`runningTimeSum`, `runningAvgForce`. -/
noncomputable def trimWindow (window : ℝ) :
    List ℝ → List ℝ → ℝ → ℝ → List ℝ × List ℝ × ℝ × ℝ
  | d :: ds, f :: fs, timeSum, avgForce =>
      if timeSum - d ≥ window then
        trimWindow window ds fs (timeSum - d) (avgForce - d * f)
      else (d :: ds, f :: fs, timeSum, avgForce)
  | ds, fs, timeSum, avgForce => (ds, fs, timeSum, avgForce)

/-- `Body.timeStep` (part_004 lines 819-844): update the force-averaging
window, then - only when the body is movable (`mass > 0`) - integrate
velocity (with per-second damping `velocityDamping ^ delta`) and, when
`applyChanges` is set, the position; finally update the averaged/maximal
forces and optionally clear the applied forces.  The source's return value
(the displacement when `applyChanges` is false) is not needed by any
claim and is dropped. -/
noncomputable def timeStep (b : Body) (delta : ℝ)
    (clearForcesFlag : Bool := true) (applyChanges : Bool := true) : Body :=
  let time := b.time + delta
  let cForce := b.appliedForces.norm
  let runningAvgForce := b.runningAvgForce + delta * cForce
  let runningForces := b.runningForces ++ [cForce]
  let runningTimeDeltas := b.runningTimeDeltas ++ [delta]
  let runningTimeSum := b.runningTimeSum + delta
  let tw :=
    trimWindow b.forceAvgWindow runningTimeDeltas runningForces runningTimeSum runningAvgForce
  let runningTimeDeltas := tw.1
  let runningForces := tw.2.1
  let runningTimeSum := tw.2.2.1
  let runningAvgForce := tw.2.2.2
  -- `if (this.mass > 0) { velocity = ...; if (applyChanges) pos = ... }`
  let velocity :=
    if 0 < b.mass then
      (b.velocity.plus ((b.appliedForces.times (1 / b.mass)).times delta)).times
        (b.velocityDamping ^ delta)
    else b.velocity
  let pos :=
    if 0 < b.mass ∧ applyChanges then b.pos.plus (velocity.times delta) else b.pos
  let currentAveragedForce :=
    (runningAvgForce - (runningTimeSum - b.forceAvgWindow) * runningForces.headD 0) /
      b.forceAvgWindow
  { b with
    time := time
    runningForces := runningForces
    runningTimeDeltas := runningTimeDeltas
    runningTimeSum := runningTimeSum
    runningAvgForce := runningAvgForce
    velocity := velocity
    pos := pos
    currentAveragedForce := currentAveragedForce
    maxForce := max b.maxForce currentAveragedForce
    appliedForces := if clearForcesFlag then ⟨0, 0, 0, false⟩ else b.appliedForces }

end Body

/-! ## Barriers (src/unnamed/part_004, lines 894-928) -/

/-- A barrier registered in `PHYSICS_WORLD.barriers`: the half-space
`{x : normal . x ≥ shift}` is allowed. -/
structure Barrier where
  normal : Vec
  shift : ℝ

/-- The inner loop body of `ensureBarrierConstraints` (part_004 lines
919-925): project a single body onto the allowed side of a single barrier
and kill any velocity component pointing into the barrier. -/
noncomputable def applyBarrierConstraint (barrier : Barrier) (body : Body) : Body :=
  let dist := barrier.normal.dot body.pos
  if dist ≤ barrier.shift then
    let body := { body with pos := body.pos.plus (barrier.normal.times (barrier.shift - dist)) }
    let velocityIntoBarrier := -(barrier.normal.dot body.velocity)
    if velocityIntoBarrier > 0 then
      { body with velocity := body.velocity.plus (barrier.normal.times velocityIntoBarrier) }
    else body
  else body

/-- `ensureBarrierConstraints` (part_004 lines 916-928): every body of the
world is run through every barrier in insertion order.  (The source
iterates over all bodies, movable or not.) -/
noncomputable def ensureBarrierConstraints (barriers : List Barrier) (bodies : List Body) :
    List Body :=
  bodies.map (fun body => barriers.foldl (fun b bar => applyBarrierConstraint bar b) body)

/-! ## Rope segments (src/unnamed/part_004, class RopeSegment) -/

/-- Class `RopeSegment` of src/unnamed/part_004 (lines 363-729).  The end
bodies `bodyA`/`bodyB` are not stored here: segments share them with the
rope's `bodies` array, which the embedding keeps arena-style in `RopeState`
(segment `i` has `bodyA = bodies[i]`, `bodyB = bodies[i+1]` - the
correspondence maintained by `removeRopeSegment`/`insertRopeSegment`).
`tensions`/`angles` are the `tmpTensionArr`/`tmpAngleArr` caches written by
`applyRopeForces` and read back by `timeStep`; the remaining temporaries
(`tmpDiffArr`, `tmpLenArr`, `tmpStartDiff`, `tmpDirectionA`, ...) are
written but never read by any operation a claim is about, and are left out
of the state. -/
structure Seg where
  mass : ℝ
  currentLength : ℝ
  restLength : ℝ
  minRestLength : ℝ
  maxRestLength : ℝ
  defaultRestLength : ℝ
  elasticityConstant : ℝ
  dampingCoefficient : ℝ
  internalDamping : ℝ
  springConstant : ℝ
  dPoints : List Body
  dPos : List ℝ
  dSpeeds : List ℝ
  tensions : List ℝ
  angles : List ℝ
  currentStretchingForce : ℝ
  currentElasticEnergy : ℝ

/-- The `RopeSegment` constructor (part_004 lines 378-428): fresh segment
between `end1` and `end2` with no deflection points and the single
partition entry `[restLength]`. -/
noncomputable def Seg.mk' (end1 end2 : Body)
    (mass restLength minRLength maxRLength defaultRLength
      elasticityConstant dampingCoefficient internalDamping : ℝ) : Seg :=
  { mass := mass
    currentLength := (end2.pos.minus end1.pos).norm
    restLength := restLength
    minRestLength := minRLength
    maxRestLength := maxRLength
    defaultRestLength := defaultRLength
    elasticityConstant := elasticityConstant
    dampingCoefficient := dampingCoefficient
    internalDamping := internalDamping
    springConstant := 1 / (restLength * elasticityConstant)
    dPoints := []
    dPos := [restLength]
    dSpeeds := []
    tensions := []
    angles := []
    currentStretchingForce := 0
    currentElasticEnergy := 0 }

noncomputable instance : Inhabited Seg :=
  ⟨Seg.mk' default default 0 0 0 0 0 0 0 0⟩

/-- The `frictionForce` of one deflection point in `RopeSegment.timeStep`
(part_004 lines 560-562): the Capstan friction capacity
`min(τ_L, τ_R)·(exp(μ·θ) - 1)` when the rope is under tension on both
sides of the point, and 0 otherwise. -/
noncomputable def capstanFrictionForce (seg : Seg) (i : ℕ) : ℝ :=
  let tensionLeft := seg.tensions.getD i 0
  let tensionRight := seg.tensions.getD (i + 1) 0
  if 0 < tensionLeft ∧ 0 < tensionRight then
    min tensionLeft tensionRight *
      (Real.exp ((seg.dPoints.getD i default).frictionCoefficient *
        seg.angles.getD (i + 1) 0) - 1)
  else 0

/-- The updated sliding speed of deflection point `i` computed by one
iteration of the loop in `RopeSegment.timeStep` (part_004 lines 554-578):
effective driving force from the Capstan stick/slip case split, explicit
Euler update of the speed, and the snap-to-zero of a speed that crossed
zero while static friction would hold. -/
noncomputable def updatedSlidingSpeed (delta : ℝ) (seg : Seg) (i : ℕ) : ℝ :=
  let tensionLeft := seg.tensions.getD i 0
  let tensionRight := seg.tensions.getD (i + 1) 0
  let slidingForce := tensionRight - tensionLeft
  let frictionForce := capstanFrictionForce seg i
  let s0 := seg.dSpeeds.getD i 0
  let effectiveSlidingForce :=
    if s0 ≠ 0 then
      if 0 < s0 then slidingForce - frictionForce else slidingForce + frictionForce
    else
      if frictionForce < |slidingForce| then
        if 0 < slidingForce then slidingForce - frictionForce else slidingForce + frictionForce
      else 0
  let slidingAcc := effectiveSlidingForce / seg.mass
  let s1 := s0 + slidingAcc * delta
  if |s1| < |slidingAcc * delta| - EPS ∧ frictionForce ≥ |slidingForce| then 0 else s1

/-- One iteration of the deflection-point loop of `RopeSegment.timeStep`
(part_004 lines 554-581): store the updated sliding speed of point `i` and
transport the rest length `s·Δt` across the point (entry `i` loses what
entry `i+1` gains). -/
noncomputable def slidingStep (delta : ℝ) (seg : Seg) (i : ℕ) : Seg :=
  let s2 := updatedSlidingSpeed delta seg i
  let dPos1 := seg.dPos.set i (seg.dPos.getD i 0 - s2 * delta)
  let dPos2 := dPos1.set (i + 1) (dPos1.getD (i + 1) 0 + s2 * delta)
  { seg with dSpeeds := seg.dSpeeds.set i s2, dPos := dPos2 }

/-- The deflection-point loop of `RopeSegment.timeStep` run from index `i`
for `n` further iterations. -/
noncomputable def slidingLoopAux (delta : ℝ) : Seg → ℕ → ℕ → Seg
  | seg, _, 0 => seg
  | seg, i, n + 1 => slidingLoopAux delta (slidingStep delta seg i) (i + 1) n

/-- The complete friction/sliding update of `RopeSegment.timeStep`
(part_004 lines 553-581): the loop body `slidingStep` for
`i = 0 … deflectionPoints.length - 1`.  (The subsequent
`bodyA.timeStep`/`bodyB.timeStep` calls of the source are the `Body`
updates of claim C4 and touch no segment state.) -/
noncomputable def segSlidingUpdate (delta : ℝ) (seg : Seg) : Seg :=
  slidingLoopAux delta seg 0 seg.dPoints.length

/-- The structural invariant of claim C10: the partition has one entry
more than the deflection-point list, the speed list as many as the points. -/
def SegInv (seg : Seg) : Prop :=
  seg.dPos.length = seg.dPoints.length + 1 ∧ seg.dSpeeds.length = seg.dPoints.length

/-! ### List helper lemmas -/

theorem getD_set_ite' {α : Type} (l : List α) (i j : ℕ) (v d : α) :
    (l.set i v).getD j d = if i = j ∧ j < l.length then v else l.getD j d := by
  rcases eq_or_ne i j with h | h
  · subst h
    by_cases hl : i < l.length
    · rw [if_pos ⟨rfl, hl⟩, List.getD_eq_getElem?_getD, List.getElem?_set_self hl]
      rfl
    · rw [if_neg (fun hc => hl hc.2), List.getD_eq_getElem?_getD,
        List.getD_eq_getElem?_getD, List.getElem?_set]
      rw [if_pos rfl, if_neg hl, List.getElem?_eq_none (le_of_not_lt hl)]
  · rw [if_neg (fun hc => h hc.1), List.getD_eq_getElem?_getD,
      List.getD_eq_getElem?_getD, List.getElem?_set_ne h]

theorem getD_set_ite (l : List ℝ) (i j : ℕ) (v : ℝ) :
    (l.set i v).getD j 0 = if i = j ∧ j < l.length then v else l.getD j 0 := by
  rcases eq_or_ne i j with h | h
  · subst h
    by_cases hl : i < l.length
    · rw [if_pos ⟨rfl, hl⟩, List.getD_eq_getElem?_getD, List.getElem?_set_self hl]
      rfl
    · rw [if_neg (fun hc => hl hc.2), List.getD_eq_getElem?_getD,
        List.getD_eq_getElem?_getD, List.getElem?_set]
      rw [if_pos rfl, if_neg hl, List.getElem?_eq_none (le_of_not_lt hl)]
  · rw [if_neg (fun hc => h hc.1), List.getD_eq_getElem?_getD,
      List.getD_eq_getElem?_getD, List.getElem?_set_ne h]

theorem getD_set_getD (l : List ℝ) (i j : ℕ) :
    (l.set i (l.getD i 0)).getD j 0 = l.getD j 0 := by
  rw [getD_set_ite]
  split_ifs with h
  · rw [h.1]
  · rfl

theorem sum_set_real (l : List ℝ) (i : ℕ) (v : ℝ) (h : i < l.length) :
    (l.set i v).sum = l.sum - l.getD i 0 + v := by
  induction l generalizing i with
  | nil => simp at h
  | cons a t ih =>
      cases i with
      | zero => simp [List.getD]; ring
      | succ n =>
          simp only [List.set, List.sum_cons, List.getD_cons_succ]
          rw [ih n (by simpa using h)]
          ring

theorem sum_eraseIdx_real (l : List ℝ) (i : ℕ) (h : i < l.length) :
    (l.eraseIdx i).sum = l.sum - l.getD i 0 := by
  induction l generalizing i with
  | nil => simp at h
  | cons a t ih =>
      cases i with
      | zero => simp [List.getD]
      | succ n =>
          simp only [List.eraseIdx, List.sum_cons, List.getD_cons_succ]
          rw [ih n (by simpa using h)]
          ring

theorem sum_insertIdx_real (l : List ℝ) (i : ℕ) (v : ℝ) (h : i ≤ l.length) :
    (l.insertIdx i v).sum = l.sum + v := by
  induction l generalizing i with
  | nil =>
      have hi : i = 0 := Nat.le_zero.mp h
      subst hi
      simp
  | cons a t ih =>
      cases i with
      | zero => simp [List.insertIdx]; ring
      | succ n =>
          simp only [List.insertIdx_succ_cons, List.sum_cons]
          rw [ih n (by simpa using h)]
          ring

/-! ### Properties of the sliding loop -/

theorem slidingStep_fields (delta : ℝ) (seg : Seg) (i : ℕ) :
    (slidingStep delta seg i).tensions = seg.tensions ∧
    (slidingStep delta seg i).angles = seg.angles ∧
    (slidingStep delta seg i).dPoints = seg.dPoints ∧
    (slidingStep delta seg i).mass = seg.mass ∧
    (slidingStep delta seg i).restLength = seg.restLength ∧
    (slidingStep delta seg i).minRestLength = seg.minRestLength ∧
    (slidingStep delta seg i).maxRestLength = seg.maxRestLength ∧
    (slidingStep delta seg i).defaultRestLength = seg.defaultRestLength ∧
    (slidingStep delta seg i).dSpeeds.length = seg.dSpeeds.length ∧
    (slidingStep delta seg i).dPos.length = seg.dPos.length := by
  simp [slidingStep]

theorem updatedSlidingSpeed_congr (delta : ℝ) (seg seg' : Seg) (i : ℕ)
    (ht : seg'.tensions = seg.tensions) (ha : seg'.angles = seg.angles)
    (hd : seg'.dPoints = seg.dPoints) (hm : seg'.mass = seg.mass)
    (hs : seg'.dSpeeds.getD i 0 = seg.dSpeeds.getD i 0) :
    updatedSlidingSpeed delta seg' i = updatedSlidingSpeed delta seg i := by
  unfold updatedSlidingSpeed capstanFrictionForce
  rw [ht, ha, hd, hm, hs]

theorem slidingLoopAux_fields (delta : ℝ) :
    ∀ (n i₀ : ℕ) (seg : Seg),
      (slidingLoopAux delta seg i₀ n).tensions = seg.tensions ∧
      (slidingLoopAux delta seg i₀ n).angles = seg.angles ∧
      (slidingLoopAux delta seg i₀ n).dPoints = seg.dPoints ∧
      (slidingLoopAux delta seg i₀ n).mass = seg.mass ∧
      (slidingLoopAux delta seg i₀ n).restLength = seg.restLength ∧
      (slidingLoopAux delta seg i₀ n).minRestLength = seg.minRestLength ∧
      (slidingLoopAux delta seg i₀ n).maxRestLength = seg.maxRestLength ∧
      (slidingLoopAux delta seg i₀ n).defaultRestLength = seg.defaultRestLength ∧
      (slidingLoopAux delta seg i₀ n).dSpeeds.length = seg.dSpeeds.length ∧
      (slidingLoopAux delta seg i₀ n).dPos.length = seg.dPos.length := by
  intro n
  induction n with
  | zero => intro i₀ seg; simp [slidingLoopAux]
  | succ n ih =>
      intro i₀ seg
      have h1 := ih (i₀ + 1) (slidingStep delta seg i₀)
      have h2 := slidingStep_fields delta seg i₀
      simp only [slidingLoopAux]
      exact ⟨h1.1.trans h2.1, h1.2.1.trans h2.2.1, h1.2.2.1.trans h2.2.2.1,
        h1.2.2.2.1.trans h2.2.2.2.1, h1.2.2.2.2.1.trans h2.2.2.2.2.1,
        h1.2.2.2.2.2.1.trans h2.2.2.2.2.2.1,
        h1.2.2.2.2.2.2.1.trans h2.2.2.2.2.2.2.1,
        h1.2.2.2.2.2.2.2.1.trans h2.2.2.2.2.2.2.2.1,
        h1.2.2.2.2.2.2.2.2.1.trans h2.2.2.2.2.2.2.2.2.1,
        h1.2.2.2.2.2.2.2.2.2.trans h2.2.2.2.2.2.2.2.2.2⟩

theorem slidingLoopAux_dSpeeds_lt (delta : ℝ) :
    ∀ (n i₀ : ℕ) (seg : Seg) (k : ℕ), k < i₀ →
      (slidingLoopAux delta seg i₀ n).dSpeeds.getD k 0 = seg.dSpeeds.getD k 0 := by
  intro n
  induction n with
  | zero => intro i₀ seg k _; rfl
  | succ n ih =>
      intro i₀ seg k hk
      simp only [slidingLoopAux]
      rw [ih (i₀ + 1) (slidingStep delta seg i₀) k (Nat.lt_succ_of_lt hk)]
      simp only [slidingStep]
      rw [getD_set_ite]
      rw [if_neg (fun hc => (Nat.ne_of_gt hk) hc.1)]

theorem slidingLoopAux_dSpeeds_eq (delta : ℝ) :
    ∀ (n i₀ : ℕ) (seg : Seg) (k : ℕ), i₀ ≤ k → k < i₀ + n →
      k < seg.dSpeeds.length →
      (slidingLoopAux delta seg i₀ n).dSpeeds.getD k 0 = updatedSlidingSpeed delta seg k := by
  intro n
  induction n with
  | zero => intro i₀ seg k h1 h2 _; omega
  | succ n ih =>
      intro i₀ seg k h1 h2 hlen
      simp only [slidingLoopAux]
      rcases eq_or_lt_of_le h1 with h | h
      · subst h
        rw [slidingLoopAux_dSpeeds_lt delta n (i₀ + 1) _ i₀ (Nat.lt_succ_self i₀)]
        simp only [slidingStep]
        rw [getD_set_ite, if_pos ⟨rfl, hlen⟩]
      · rw [ih (i₀ + 1) (slidingStep delta seg i₀) k h (by omega)
          (by rw [(slidingStep_fields delta seg i₀).2.2.2.2.2.2.2.2.1]; exact hlen)]
        have hf := slidingStep_fields delta seg i₀
        refine updatedSlidingSpeed_congr delta seg _ k hf.1 hf.2.1 hf.2.2.1 hf.2.2.2.1 ?_
        simp only [slidingStep]
        rw [getD_set_ite, if_neg (fun hc => (Nat.ne_of_lt h) hc.1)]

theorem slidingLoopAux_dPos_stuck (delta : ℝ) :
    ∀ (n i₀ : ℕ) (seg : Seg) (j : ℕ),
      (∀ i, i₀ ≤ i → i < i₀ + n → (i = j ∨ i + 1 = j) → updatedSlidingSpeed delta seg i = 0) →
      (slidingLoopAux delta seg i₀ n).dPos.getD j 0 = seg.dPos.getD j 0 := by
  intro n
  induction n with
  | zero => intro i₀ seg j _; rfl
  | succ n ih =>
      intro i₀ seg j hyp
      simp only [slidingLoopAux]
      have hf := slidingStep_fields delta seg i₀
      have hcongr : ∀ i, i ≠ i₀ →
          updatedSlidingSpeed delta (slidingStep delta seg i₀) i = updatedSlidingSpeed delta seg i := by
        intro i hi
        refine updatedSlidingSpeed_congr delta seg _ i hf.1 hf.2.1 hf.2.2.1 hf.2.2.2.1 ?_
        simp only [slidingStep]
        rw [getD_set_ite, if_neg (fun hc => hi hc.1.symm)]
      rw [ih (i₀ + 1) (slidingStep delta seg i₀) j (fun i hi1 hi2 hij => by
        rw [hcongr i (by omega)]
        exact hyp i (by omega) (by omega) hij)]
      by_cases hij : i₀ = j ∨ i₀ + 1 = j
      · have hzero : updatedSlidingSpeed delta seg i₀ = 0 :=
          hyp i₀ le_rfl (by omega) hij
        simp only [slidingStep, hzero, zero_mul, sub_zero, add_zero]
        rw [getD_set_getD, getD_set_getD]
      · push_neg at hij
        simp only [slidingStep]
        rw [getD_set_ite, if_neg, getD_set_ite, if_neg]
        · exact fun hc => hij.1 hc.1
        · rw [List.length_set]
          exact fun hc => hij.2 hc.1

theorem slidingStep_dPos_sum (delta : ℝ) (seg : Seg) (i : ℕ)
    (h : i + 1 < seg.dPos.length) :
    (slidingStep delta seg i).dPos.sum = seg.dPos.sum := by
  simp only [slidingStep]
  rw [sum_set_real _ _ _ (by rw [List.length_set]; exact h),
    sum_set_real _ _ _ (Nat.lt_of_succ_lt h)]
  ring

theorem slidingLoopAux_dPos_sum (delta : ℝ) :
    ∀ (n i₀ : ℕ) (seg : Seg), i₀ + n + 1 ≤ seg.dPos.length →
      (slidingLoopAux delta seg i₀ n).dPos.sum = seg.dPos.sum := by
  intro n
  induction n with
  | zero => intro i₀ seg _; rfl
  | succ n ih =>
      intro i₀ seg h
      simp only [slidingLoopAux]
      rw [ih (i₀ + 1) (slidingStep delta seg i₀)
        (by rw [(slidingStep_fields delta seg i₀).2.2.2.2.2.2.2.2.2]; omega)]
      exact slidingStep_dPos_sum delta seg i₀ (by omega)

theorem updatedSlidingSpeed_of_stuck (delta : ℝ) (seg : Seg) (j : ℕ)
    (hs : seg.dSpeeds.getD j 0 = 0)
    (hineq : |seg.tensions.getD (j + 1) 0 - seg.tensions.getD j 0| ≤
      capstanFrictionForce seg j) :
    updatedSlidingSpeed delta seg j = 0 := by
  unfold updatedSlidingSpeed
  simp only [hs, ne_eq, not_true_eq_false, if_false, not_lt.mpr hineq, if_neg,
    ite_false, zero_div, zero_mul, zero_add]
  split_ifs with h
  · rfl
  · rfl

/-- Concrete two-deflection-point segment used to refute claim C3 as
stated: point 0 is stuck (equal tensions, zero capacity), while point 1 is
driven by a tension difference of 4 against zero friction and slides. -/
noncomputable def segC3 : Seg :=
  { mass := 1
    currentLength := 0
    restLength := 3
    minRestLength := 0
    maxRestLength := 10
    defaultRestLength := 1
    elasticityConstant := 0
    dampingCoefficient := 0
    internalDamping := 0
    springConstant := 0
    dPoints := [Body.mk' 0 0 0 0, Body.mk' 0 0 0 0]
    dPos := [1, 1, 1]
    dSpeeds := [0, 0]
    tensions := [1, 1, 5]
    angles := [0, 0, 0]
    currentStretchingForce := 0
    currentElasticEnergy := 0 }

/-- Counterexample to claim C3 as stated: in `segC3`, deflection point
`k = 0` satisfies the sticking hypothesis (`s_0 = 0` and
`|τ_R - τ_L| = 0 ≤` the friction capacity), yet `RopeSegment.timeStep`
does not leave partition entry `k + 1 = 1` unchanged: the *neighbouring*
point 1 slides and drains entry 1 from `1` to `-3`. -/
theorem claim_C3_counterexample :
    segC3.dSpeeds.getD 0 0 = 0 ∧
    |segC3.tensions.getD 1 0 - segC3.tensions.getD 0 0| ≤ capstanFrictionForce segC3 0 ∧
    (segSlidingUpdate 1 segC3).dPos.getD 1 0 ≠ segC3.dPos.getD 1 0 := by
  have hfr0 : capstanFrictionForce segC3 0 = 0 := by
    unfold capstanFrictionForce segC3
    norm_num [Body.mk', Real.exp_zero]
  have hfr1 : capstanFrictionForce segC3 1 = 0 := by
    unfold capstanFrictionForce segC3
    norm_num [Body.mk', Real.exp_zero]
  refine ⟨rfl, ?_, ?_⟩
  · rw [hfr0]
    norm_num [segC3]
  · have hs0 : updatedSlidingSpeed 1 segC3 0 = 0 := by
      apply updatedSlidingSpeed_of_stuck
      · rfl
      · rw [hfr0]; norm_num [segC3]
    have hs1 : updatedSlidingSpeed 1 segC3 1 = 4 := by
      unfold updatedSlidingSpeed
      rw [hfr1]
      have h1 : segC3.dSpeeds.getD 1 0 = 0 := rfl
      have h2 : segC3.tensions.getD 2 0 = 5 := rfl
      have h3 : segC3.tensions.getD 1 0 = 1 := rfl
      rw [h1, h2, h3]
      simp only [segC3, ne_eq, not_true_eq_false, if_false, ite_false]
      norm_num [EPS]
    show (slidingLoopAux 1 segC3 0 2).dPos.getD 1 0 ≠ segC3.dPos.getD 1 0
    have e1 : slidingLoopAux 1 segC3 0 2 =
        slidingStep 1 (slidingStep 1 segC3 0) 1 := rfl
    rw [e1]
    have hstep0 : slidingStep 1 segC3 0 = { segC3 with dSpeeds := [0, 0], dPos := [1, 1, 1] } := by
      simp only [slidingStep, hs0, zero_mul, sub_zero, add_zero]
      have : segC3.dPos.set 0 (segC3.dPos.getD 0 0) = [1, 1, 1] := rfl
      rw [this]
      have : ([(1 : ℝ), 1, 1].set 1 (List.getD [(1 : ℝ), 1, 1] 1 0)) = [1, 1, 1] := rfl
      rw [this]
      have : segC3.dSpeeds.set 0 0 = [0, 0] := rfl
      rw [this]
    rw [hstep0]
    have hs1' : updatedSlidingSpeed 1 { segC3 with dSpeeds := [0, 0], dPos := [1, 1, 1] } 1 =
        updatedSlidingSpeed 1 segC3 1 := by
      apply updatedSlidingSpeed_congr <;> rfl
    simp only [slidingStep, hs1', hs1]
    norm_num [segC3]

/-- Claim C3, amended: for a deflection point `k` with sliding speed 0
whose pulling-force difference is within the Capstan friction capacity,
`RopeSegment.timeStep` leaves `s_k` equal to 0 - under point `k`'s
sticking condition alone, because iteration `k` of the loop reads only the
cached tensions and angles and `s_k` itself, none of which the other
iterations modify.  Partition entries `k` and `k + 1` are additionally
unchanged provided the adjacent deflection points `k - 1` and `k + 1`
(where they exist) satisfy the same sticking condition - without that
proviso a sliding neighbour changes the shared entry (see the
counterexample). -/
theorem claim_C3_amended (delta : ℝ) (seg : Seg) (hinv : SegInv seg) (k : ℕ)
    (hk : k < seg.dPoints.length)
    (hsk : seg.dSpeeds.getD k 0 = 0)
    (hineq : |seg.tensions.getD (k + 1) 0 - seg.tensions.getD k 0| ≤
      capstanFrictionForce seg k) :
    (segSlidingUpdate delta seg).dSpeeds.getD k 0 = 0 ∧
    ((∀ j, j < seg.dPoints.length → (j + 1 = k ∨ j = k + 1) →
        seg.dSpeeds.getD j 0 = 0 ∧
        |seg.tensions.getD (j + 1) 0 - seg.tensions.getD j 0| ≤
          capstanFrictionForce seg j) →
      (segSlidingUpdate delta seg).dPos.getD k 0 = seg.dPos.getD k 0 ∧
      (segSlidingUpdate delta seg).dPos.getD (k + 1) 0 = seg.dPos.getD (k + 1) 0) := by
  have hzk : updatedSlidingSpeed delta seg k = 0 :=
    updatedSlidingSpeed_of_stuck delta seg k hsk hineq
  constructor
  · unfold segSlidingUpdate
    rw [slidingLoopAux_dSpeeds_eq delta seg.dPoints.length 0 seg k (Nat.zero_le k)
      (by omega) (by rw [hinv.2]; exact hk)]
    exact hzk
  · intro hstuck
    have hzero : ∀ j, j < seg.dPoints.length → (j = k ∨ j + 1 = k ∨ j = k + 1) →
        updatedSlidingSpeed delta seg j = 0 := by
      intro j hj hjk
      rcases hjk with h | h
      · subst h
        exact hzk
      · obtain ⟨h1, h2⟩ := hstuck j hj h
        exact updatedSlidingSpeed_of_stuck delta seg j h1 h2
    constructor
    · unfold segSlidingUpdate
      apply slidingLoopAux_dPos_stuck
      intro i _ hi2 hij
      apply hzero i (by omega)
      rcases hij with h | h
      · exact Or.inl h
      · exact Or.inr (Or.inl h)
    · unfold segSlidingUpdate
      apply slidingLoopAux_dPos_stuck
      intro i _ hi2 hij
      apply hzero i (by omega)
      rcases hij with h | h
      · exact Or.inr (Or.inr h)
      · exact Or.inl (by omega)

/-- Concrete one-deflection-point segment with equal tensions on both
sides of its stuck point, used to witness the amended claim C3. -/
noncomputable def segC3w : Seg :=
  { mass := 1, currentLength := 0, restLength := 2, minRestLength := 0,
    maxRestLength := 10, defaultRestLength := 1, elasticityConstant := 0,
    dampingCoefficient := 0, internalDamping := 0, springConstant := 0,
    dPoints := [Body.mk' 0 0 0 0], dPos := [1, 1], dSpeeds := [0],
    tensions := [1, 1], angles := [0, 0],
    currentStretchingForce := 0, currentElasticEnergy := 0 }

/-- Witness for the amended C3: a single stuck deflection point with equal
tensions on both sides keeps speed 0 and both partition entries. -/
theorem claim_C3_amended_witness :
    (segSlidingUpdate 1 segC3w).dSpeeds.getD 0 0 = 0 ∧
    (segSlidingUpdate 1 segC3w).dPos.getD 0 0 = segC3w.dPos.getD 0 0 ∧
    (segSlidingUpdate 1 segC3w).dPos.getD 1 0 = segC3w.dPos.getD 1 0 := by
  have hineq : |segC3w.tensions.getD 1 0 - segC3w.tensions.getD 0 0| ≤
      capstanFrictionForce segC3w 0 := by
    have hfr : capstanFrictionForce segC3w 0 = 0 := by
      unfold capstanFrictionForce
      norm_num [segC3w, Body.mk', Real.exp_zero]
    rw [hfr]
    norm_num [segC3w]
  obtain ⟨h1, h2⟩ := claim_C3_amended 1 segC3w ⟨rfl, rfl⟩ 0 (by simp [segC3w]) rfl hineq
  obtain ⟨h3, h4⟩ := h2 (fun j hj hjk => by
    have hj0 : j = 0 := by
      simp only [segC3w, List.length_cons, List.length_nil] at hj
      omega
    subst hj0
    rcases hjk with h | h <;> omega)
  exact ⟨h1, h3, h4⟩

/-! ## The rope (src/unnamed/part_004, class Rope) and re-meshing

The rope owns the ordered segment list and the ordered joint-body list;
segment `i` bridges `bodies[i]` and `bodies[i+1]`.  The JavaScript methods
mutate shared objects through references; the embedding passes the whole
`RopeState` explicitly.  `Rope.removeRopeSegment(idx)` (part_004 lines
195-207) splices one segment and replaces the two bodies `idx`, `idx+1` by
the already re-linked end body of a neighbour - under the arena
correspondence its net effect is to delete the joint body shared by the
merged pair, which is how it is rendered below.  `Rope.insertRopeSegment`
(lines 218-232) analogously inserts the new joint body at `idx+1`. -/
structure RopeState where
  bodies : List Body
  segs : List Seg

/-- Overwrite the mass of body `i` (a `body.mass = …` assignment of the
source on the rope's body array). -/
def setBodyMass (bodies : List Body) (i : ℕ) (m : ℝ) : List Body :=
  bodies.set i { bodies.getD i default with mass := m }

/-- The first block of `RopeSegment.postprocessTimeStepA` (part_004 lines
594-628): if the partition entry between `bodyA` and the first deflection
point is below the minimal rest length, either slip out of the first
deflection point (first segment), warn (first segment without points), or
merge with the previous segment, re-balancing the neighbour joint masses.
Returns the state and the segment's new index. -/
noncomputable def passAFront (st : RopeState) (idx : ℕ) : RopeState × ℕ :=
  let seg := st.segs.getD idx default
  if seg.dPos.getD 0 0 < seg.minRestLength then
    if idx = 0 then -- this.previousSegment === null
      if 0 < seg.dPoints.length then
        -- rope slips out of the first deflection point (lines 597-600)
        let seg' := { seg with
          dPos := (seg.dPos.set 1 (seg.dPos.getD 1 0 + seg.dPos.getD 0 0)).drop 1
          dPoints := seg.dPoints.drop 1
          dSpeeds := seg.dSpeeds.drop 1 }
        ({ st with segs := st.segs.set idx seg' }, idx)
      else (st, idx) -- only a console warning (line 602)
    else
      -- merge with the previous segment (lines 604-627)
      let prev := st.segs.getD (idx - 1) default
      let mergedMass := seg.mass + prev.mass
      let bodies1 :=
        if idx - 1 = 0 then -- previous segment is the first segment
          if idx + 1 < st.segs.length then -- this.followingSegment !== null
            setBodyMass st.bodies (idx + 1)
              (0.5 * (st.segs.getD (idx + 1) default).mass + mergedMass)
          else st.bodies
        else
          if idx + 1 < st.segs.length then
            setBodyMass
              (setBodyMass st.bodies (idx + 1)
                (0.5 * (st.segs.getD (idx + 1) default).mass + 0.5 * mergedMass))
              (idx - 1) (0.5 * mergedMass + 0.5 * (st.segs.getD (idx - 2) default).mass)
          else
            setBodyMass st.bodies (idx - 1)
              (mergedMass + 0.5 * (st.segs.getD (idx - 2) default).mass)
      let seg' := { seg with
        mass := mergedMass
        restLength := seg.restLength + prev.restLength
        dPos := prev.dPos.dropLast ++
          seg.dPos.set 0 (seg.dPos.getD 0 0 + (prev.dPos.getLast?.getD 0))
        dSpeeds := prev.dSpeeds ++ seg.dSpeeds
        dPoints := prev.dPoints ++ seg.dPoints }
      -- removeRopeSegment(idx - 1): drop the previous segment and the
      -- joint body the two segments shared (old bodies[idx])
      ({ bodies := bodies1.eraseIdx idx
         segs := (st.segs.set idx seg').eraseIdx (idx - 1) }, idx - 1)
  else (st, idx)

/-- The second block of `RopeSegment.postprocessTimeStepA` (part_004 lines
629-664): the mirrored treatment of the partition entry between the last
deflection point and `bodyB` (slip out at the last segment, else merge
with the following segment). -/
noncomputable def passABack (st : RopeState) (idx : ℕ) : RopeState × ℕ :=
  let seg := st.segs.getD idx default
  if 0 < seg.dPoints.length ∧ seg.dPos.getD seg.dPoints.length 0 < seg.minRestLength then
    if idx + 1 = st.segs.length then -- this.followingSegment === null
      if 0 < seg.dPoints.length then
        -- rope slips out of the last deflection point (lines 633-636)
        let n := seg.dPoints.length
        let seg' := { seg with
          dPos := (seg.dPos.set (n - 1) (seg.dPos.getD (n - 1) 0 + seg.dPos.getD n 0)).dropLast
          dPoints := seg.dPoints.dropLast
          dSpeeds := seg.dSpeeds.dropLast }
        ({ st with segs := st.segs.set idx seg' }, idx)
      else (st, idx) -- only a console warning (line 638); unreachable here
    else
      -- merge with the following segment (lines 640-663)
      let next := st.segs.getD (idx + 1) default
      let mergedMass := seg.mass + next.mass
      let bodies1 :=
        if idx + 2 = st.segs.length then -- following segment is the last segment
          if 0 < idx then -- this.previousSegment !== null
            setBodyMass st.bodies idx
              (0.5 * (st.segs.getD (idx - 1) default).mass + mergedMass)
          else st.bodies
        else
          if 0 < idx then
            setBodyMass
              (setBodyMass st.bodies idx
                (0.5 * (st.segs.getD (idx - 1) default).mass + 0.5 * mergedMass))
              (idx + 2) (0.5 * mergedMass + 0.5 * (st.segs.getD (idx + 2) default).mass)
          else
            setBodyMass st.bodies (idx + 2)
              (mergedMass + 0.5 * (st.segs.getD (idx + 2) default).mass)
      let seg' := { seg with
        mass := mergedMass
        restLength := seg.restLength + next.restLength
        dPos := seg.dPos.set seg.dPoints.length
            (seg.dPos.getD seg.dPoints.length 0 + next.dPos.headD 0) ++ next.dPos.drop 1
        dSpeeds := seg.dSpeeds ++ next.dSpeeds
        dPoints := seg.dPoints ++ next.dPoints }
      -- removeRopeSegment(idx + 1): drop the following segment and the
      -- joint body the two segments shared (old bodies[idx+1])
      ({ bodies := bodies1.eraseIdx (idx + 1)
         segs := (st.segs.set idx seg').eraseIdx (idx + 1) }, idx)
  else (st, idx)

/-- `RopeSegment.postprocessTimeStepA` (part_004 lines 593-666): the
front block followed by the back block; returns the segment's index in the
rope after processing. -/
noncomputable def postprocessTimeStepA (st : RopeState) (idx : ℕ) : RopeState × ℕ :=
  let r := passAFront st idx
  passABack r.1 r.2

/-- The merge pass of `Rope.postprocessTimeStep` (part_004 lines 285-286):
`for (let i = 0; i < segs.length; i++) i = segs[i].postprocessTimeStepA()`.
The loop always terminates (each iteration strictly decreases
`segs.length - i`); `fuel` bounds the number of iterations and is
instantiated generously by the caller. -/
noncomputable def passALoop : ℕ → RopeState → ℕ → RopeState
  | 0, st, _ => st
  | fuel + 1, st, i =>
      if i < st.segs.length then
        let r := postprocessTimeStepA st i
        passALoop fuel r.1 (r.2 + 1)
      else st

/-- The `i == 0` split of `RopeSegment.postprocessTimeStepB` (part_004
lines 676-698): split off a fresh segment of default rest length between
`bodyA` and the first deflection point, with a new joint body placed at
the proportional point of the stretched sub-edge and the neighbour joint
masses re-balanced.  Returns the state and `this.indexInRope - 1`. -/
noncomputable def splitFront (st : RopeState) (idx : ℕ) : RopeState × ℤ :=
  let seg := st.segs.getD idx default
  let frac := seg.defaultRestLength / seg.dPos.getD 0 0
  let newMass := seg.defaultRestLength / seg.restLength * seg.mass
  let seg1 := { seg with
    mass := seg.mass - newMass
    dPos := seg.dPos.set 0 (seg.dPos.getD 0 0 - seg.defaultRestLength)
    restLength := seg.restLength - seg.defaultRestLength }
  let bodyA := st.bodies.getD idx default
  let nBodyPos := (bodyA.pos.times (1 - frac)).plus
    ((seg.dPoints.getD 0 default).pos.times frac)
  let nBodyMass := (if idx = 0 then 1 else 0.5) * newMass +
    (if idx + 1 = st.segs.length then 1 else 0.5) * seg1.mass
  let nBody := { Body.mk' nBodyPos.x nBodyPos.y nBodyPos.z nBodyMass with
    velocity := bodyA.velocity }
  let bodies1 :=
    if 0 < idx then -- this.previousSegment !== null
      setBodyMass st.bodies idx
        (0.5 * newMass + 0.5 * (st.segs.getD (idx - 1) default).mass)
    else st.bodies
  let bodies2 :=
    if idx + 1 < st.segs.length then -- this.followingSegment !== null
      setBodyMass bodies1 (idx + 1)
        (0.5 * (st.segs.getD (idx + 1) default).mass + 0.5 * seg1.mass)
    else bodies1
  let nRopeSeg := Seg.mk' bodyA nBody newMass
    seg.defaultRestLength seg.minRestLength seg.maxRestLength seg.defaultRestLength
    seg.elasticityConstant seg.dampingCoefficient seg.internalDamping
  -- insertRopeSegment(idx, nRopeSeg): the new joint body sits at idx+1
  ({ bodies := bodies2.insertIdx (idx + 1) nBody
     segs := (st.segs.set idx seg1).insertIdx idx nRopeSeg }, (idx : ℤ))

/-- The `i == last` split of `RopeSegment.postprocessTimeStepB` (part_004
lines 699-721), mirroring `splitFront` at the `bodyB` end.  Returns the
state and `this.indexInRope - 1`. -/
noncomputable def splitBack (st : RopeState) (idx : ℕ) : RopeState × ℤ :=
  let seg := st.segs.getD idx default
  let n := seg.dPoints.length
  let frac := seg.defaultRestLength / seg.dPos.getD n 0
  let newMass := seg.defaultRestLength / seg.restLength * seg.mass
  let seg1 := { seg with
    mass := seg.mass - newMass
    dPos := seg.dPos.set n (seg.dPos.getD n 0 - seg.defaultRestLength)
    restLength := seg.restLength - seg.defaultRestLength }
  let bodyB := st.bodies.getD (idx + 1) default
  let nBodyPos := (bodyB.pos.times (1 - frac)).plus
    ((seg.dPoints.getD (n - 1) default).pos.times frac)
  let nBodyMass := (if idx + 1 = st.segs.length then 1 else 0.5) * newMass +
    (if idx = 0 then 1 else 0.5) * seg1.mass
  let nBody := { Body.mk' nBodyPos.x nBodyPos.y nBodyPos.z nBodyMass with
    velocity := bodyB.velocity }
  let bodies1 :=
    if idx + 1 < st.segs.length then -- this.followingSegment !== null
      setBodyMass st.bodies (idx + 1)
        (0.5 * newMass + 0.5 * (st.segs.getD (idx + 1) default).mass)
    else st.bodies
  let bodies2 :=
    if 0 < idx then -- this.previousSegment !== null
      setBodyMass bodies1 idx
        (0.5 * (st.segs.getD (idx - 1) default).mass + 0.5 * seg1.mass)
    else bodies1
  let nRopeSeg := Seg.mk' nBody bodyB newMass
    seg.defaultRestLength seg.minRestLength seg.maxRestLength seg.defaultRestLength
    seg.elasticityConstant seg.dampingCoefficient seg.internalDamping
  -- insertRopeSegment(idx + 1, nRopeSeg): the new joint body sits at idx+1
  ({ bodies := bodies2.insertIdx (idx + 1) nBody
     segs := (st.segs.set idx seg1).insertIdx (idx + 1) nRopeSeg }, (idx : ℤ) - 1)

/-- The scanning loop of `RopeSegment.postprocessTimeStepB` (part_004
lines 673-727): walk the partition entries in order; an oversized entry is
split off at the front or back, an oversized segment without deflection
points or an oversized interior entry raises the corresponding fatal
error.  `n` counts the remaining entries of the scan. -/
noncomputable def passBScanAux (st : RopeState) (idx : ℕ) :
    ℕ → ℕ → Except String (RopeState × ℤ)
  | _, 0 => .ok (st, (idx : ℤ))
  | j, n + 1 =>
      let seg := st.segs.getD idx default
      if seg.maxRestLength < seg.dPos.getD j 0 then
        if seg.dPoints.length = 0 then
          .error "segment without deflection points too long"
        else if j = 0 then .ok (splitFront st idx)
        else if j = seg.dPos.length - 1 then .ok (splitBack st idx)
        else .error "rope segment splitting between deflection points not supported"
      else passBScanAux st idx (j + 1) n

/-- `RopeSegment.postprocessTimeStepB` (part_004 lines 672-728). -/
noncomputable def postprocessTimeStepB (st : RopeState) (idx : ℕ) :
    Except String (RopeState × ℤ) :=
  passBScanAux st idx 0 (st.segs.getD idx default).dPos.length

/-- The split pass of `Rope.postprocessTimeStep` (part_004 lines 287-288):
`for (let i = 0; i < segs.length; i++) i = segs[i].postprocessTimeStepB()`.
A split can return `i - 1` so that the still-oversized remainder is
re-examined; `fuel` bounds the number of loop iterations (finite because
every split removes `defaultRestLength` from the segment). -/
noncomputable def passBLoop : ℕ → RopeState → ℕ → Except String RopeState
  | 0, st, _ => .ok st
  | fuel + 1, st, i =>
      if i < st.segs.length then
        match postprocessTimeStepB st i with
        | .error e => .error e
        | .ok (st', i') => passBLoop fuel st' (i' + 1).toNat
      else .ok st

/-- `Rope.postprocessTimeStep` (part_004 lines 284-289): Pass A (merge)
over all segments, then Pass B (split) over all segments. -/
noncomputable def ropePostprocessTimeStep (fuelA fuelB : ℕ) (st : RopeState) :
    Except String RopeState :=
  passBLoop fuelB (passALoop fuelA st 0) 0

/-! ### Conservation of total rest length and total mass by re-meshing -/

theorem map_eraseIdx' {α β : Type} (f : α → β) (l : List α) :
    ∀ i : ℕ, (l.eraseIdx i).map f = (l.map f).eraseIdx i := by
  induction l with
  | nil => intro i; rfl
  | cons a t ih =>
      intro i
      cases i with
      | zero => rfl
      | succ n => simp only [List.eraseIdx, List.map, ih n]

theorem map_insertIdx' {α β : Type} (f : α → β) (a : α) (l : List α) :
    ∀ i : ℕ, (l.insertIdx i a).map f = (l.map f).insertIdx i (f a) := by
  induction l with
  | nil =>
      intro i
      cases i with
      | zero => rfl
      | succ n => rfl
  | cons b t ih =>
      intro i
      cases i with
      | zero => rfl
      | succ n =>
          show f b :: (t.insertIdx n a).map f = f b :: (t.map f).insertIdx n (f a)
          rw [ih n]

theorem map_getD_zero (f : Seg → ℝ) (hf : f default = 0) (l : List Seg) (i : ℕ) :
    (l.map f).getD i 0 = f (l.getD i default) := by
  rw [← hf, List.getD_map]

theorem seg_default_mass : (default : Seg).mass = 0 := rfl

theorem seg_default_restLength : (default : Seg).restLength = 0 := rfl

/-- Either sum (`Seg.restLength` or `Seg.mass`) is preserved by the front
block of Pass A: a slip-out changes neither of the two fields, a merge
removes the previous segment but adds its mass and rest length onto the
current one. -/
theorem passAFront_sum (f : Seg → ℝ) (hf : f default = 0)
    (hadd : ∀ seg prev : Seg, f { seg with
        mass := seg.mass + prev.mass
        restLength := seg.restLength + prev.restLength
        dPos := prev.dPos.dropLast ++
          seg.dPos.set 0 (seg.dPos.getD 0 0 + (prev.dPos.getLast?.getD 0))
        dSpeeds := prev.dSpeeds ++ seg.dSpeeds
        dPoints := prev.dPoints ++ seg.dPoints } = f seg + f prev)
    (hslip : ∀ (seg : Seg) (dPos' : List ℝ) (dPoints' : List Body) (dSpeeds' : List ℝ),
      f { seg with dPos := dPos', dPoints := dPoints', dSpeeds := dSpeeds' } = f seg)
    (st : RopeState) (idx : ℕ) (st' : RopeState) (i' : ℕ)
    (h : passAFront st idx = (st', i')) :
    (st'.segs.map f).sum = (st.segs.map f).sum := by
  by_cases hidx : idx < st.segs.length
  · unfold passAFront at h
    by_cases h1 : (st.segs.getD idx default).dPos.getD 0 0 <
        (st.segs.getD idx default).minRestLength
    · rw [if_pos h1] at h
      by_cases h2 : idx = 0
      · rw [if_pos h2] at h
        by_cases h3 : 0 < (st.segs.getD idx default).dPoints.length
        · -- slip out of the first deflection point
          rw [if_pos h3] at h
          cases h
          simp only [List.map_set]
          rw [sum_set_real _ _ _ (by rw [List.length_map]; exact hidx), hslip,
            map_getD_zero f hf]
          ring
        · -- warning only
          rw [if_neg h3] at h
          cases h
          rfl
      · -- merge with the previous segment
        rw [if_neg h2] at h
        have hidx1 : 1 ≤ idx := Nat.one_le_iff_ne_zero.mpr h2
        cases h
        simp only [map_eraseIdx', List.map_set]
        rw [sum_eraseIdx_real _ _ (by
          rw [List.length_set, List.length_map]; omega)]
        rw [getD_set_ite, if_neg (by omega), sum_set_real _ _ _
          (by rw [List.length_map]; exact hidx)]
        rw [map_getD_zero f hf, map_getD_zero f hf, hadd]
        ring
    · rw [if_neg h1] at h
      cases h
      rfl
  · unfold passAFront at h
    rw [List.getD_eq_default _ _ (le_of_not_lt hidx)] at h
    rw [if_neg (by
      show ¬ ((default : Seg).dPos.getD 0 0 < (default : Seg).minRestLength)
      show ¬ (([(0 : ℝ)].getD 0 0) < (0 : ℝ))
      simp)] at h
    cases h
    rfl

/-- Either sum (`Seg.restLength` or `Seg.mass`) is preserved by the back
block of Pass A, by the mirrored argument. -/
theorem passABack_sum (f : Seg → ℝ) (hf : f default = 0)
    (hadd : ∀ seg next : Seg, f { seg with
        mass := seg.mass + next.mass
        restLength := seg.restLength + next.restLength
        dPos := seg.dPos.set seg.dPoints.length
            (seg.dPos.getD seg.dPoints.length 0 + next.dPos.headD 0) ++ next.dPos.drop 1
        dSpeeds := seg.dSpeeds ++ next.dSpeeds
        dPoints := seg.dPoints ++ next.dPoints } = f seg + f next)
    (hslip : ∀ (seg : Seg) (dPos' : List ℝ) (dPoints' : List Body) (dSpeeds' : List ℝ),
      f { seg with dPos := dPos', dPoints := dPoints', dSpeeds := dSpeeds' } = f seg)
    (st : RopeState) (idx : ℕ) (st' : RopeState) (i' : ℕ)
    (h : passABack st idx = (st', i')) :
    (st'.segs.map f).sum = (st.segs.map f).sum := by
  by_cases hidx : idx < st.segs.length
  · unfold passABack at h
    by_cases h1 : 0 < (st.segs.getD idx default).dPoints.length ∧
        (st.segs.getD idx default).dPos.getD (st.segs.getD idx default).dPoints.length 0 <
          (st.segs.getD idx default).minRestLength
    · rw [if_pos h1] at h
      by_cases h2 : idx + 1 = st.segs.length
      · rw [if_pos h2] at h
        rw [if_pos h1.1] at h
        -- slip out of the last deflection point
        cases h
        simp only [List.map_set]
        rw [sum_set_real _ _ _ (by rw [List.length_map]; exact hidx), hslip,
          map_getD_zero f hf]
        ring
      · -- merge with the following segment
        rw [if_neg h2] at h
        have hidx2 : idx + 1 < st.segs.length := by omega
        cases h
        simp only [map_eraseIdx', List.map_set]
        rw [sum_eraseIdx_real _ _ (by
          rw [List.length_set, List.length_map]; omega)]
        rw [getD_set_ite, if_neg (by omega), sum_set_real _ _ _
          (by rw [List.length_map]; exact hidx)]
        rw [map_getD_zero f hf, map_getD_zero f hf, hadd]
        ring
    · rw [if_neg h1] at h
      cases h
      rfl
  · unfold passABack at h
    rw [List.getD_eq_default _ _ (le_of_not_lt hidx)] at h
    rw [if_neg (by
      intro hc
      have h0 : (default : Seg).dPoints.length = 0 := rfl
      exact Nat.lt_irrefl 0 (h0 ▸ hc.1))] at h
    cases h
    rfl

/-- `RopeSegment.postprocessTimeStepA` preserves both the total segment
rest length and the total segment mass of the rope. -/
theorem postprocessTimeStepA_sums (st : RopeState) (idx : ℕ) (st' : RopeState) (i' : ℕ)
    (h : postprocessTimeStepA st idx = (st', i')) :
    ((st'.segs.map Seg.restLength).sum = (st.segs.map Seg.restLength).sum ∧
      (st'.segs.map Seg.mass).sum = (st.segs.map Seg.mass).sum) := by
  unfold postprocessTimeStepA at h
  constructor
  · rw [passABack_sum Seg.restLength rfl (fun _ _ => rfl) (fun _ _ _ _ => rfl) _ _ _ _ h]
    exact passAFront_sum Seg.restLength rfl (fun _ _ => rfl) (fun _ _ _ _ => rfl) st idx _ _ rfl
  · rw [passABack_sum Seg.mass rfl (fun _ _ => rfl) (fun _ _ _ _ => rfl) _ _ _ _ h]
    exact passAFront_sum Seg.mass rfl (fun _ _ => rfl) (fun _ _ _ _ => rfl) st idx _ _ rfl

/-- The Pass A driver loop preserves both totals. -/
theorem passALoop_sums : ∀ (fuel : ℕ) (st : RopeState) (i : ℕ),
    ((passALoop fuel st i).segs.map Seg.restLength).sum = (st.segs.map Seg.restLength).sum ∧
    ((passALoop fuel st i).segs.map Seg.mass).sum = (st.segs.map Seg.mass).sum := by
  intro fuel
  induction fuel with
  | zero => intro st i; exact ⟨rfl, rfl⟩
  | succ fuel ih =>
      intro st i
      by_cases hc : i < st.segs.length
      · simp only [passALoop, if_pos hc]
        obtain ⟨hA1, hA2⟩ := postprocessTimeStepA_sums st i _ _ rfl
        obtain ⟨hL1, hL2⟩ := ih (postprocessTimeStepA st i).1 ((postprocessTimeStepA st i).2 + 1)
        exact ⟨hL1.trans hA1, hL2.trans hA2⟩
      · simp only [passALoop, if_neg hc]
        refine ⟨?_, ?_⟩ <;> trivial

/-- Both totals are preserved by a front split of Pass B: the fresh
segment takes exactly the rest length and mass that the split segment
gives up. -/
theorem splitFront_sums (st : RopeState) (idx : ℕ) (hidx : idx < st.segs.length)
    (st' : RopeState) (i' : ℤ) (h : splitFront st idx = (st', i')) :
    (st'.segs.map Seg.restLength).sum = (st.segs.map Seg.restLength).sum ∧
    (st'.segs.map Seg.mass).sum = (st.segs.map Seg.mass).sum := by
  unfold splitFront at h
  cases h
  constructor <;>
  · simp only [map_insertIdx', List.map_set, Seg.mk']
    rw [sum_insertIdx_real _ _ _ (by rw [List.length_set, List.length_map]; omega),
      sum_set_real _ _ _ (by rw [List.length_map]; exact hidx),
      map_getD_zero _ rfl]
    ring

/-- Both totals are preserved by a back split of Pass B. -/
theorem splitBack_sums (st : RopeState) (idx : ℕ) (hidx : idx < st.segs.length)
    (st' : RopeState) (i' : ℤ) (h : splitBack st idx = (st', i')) :
    (st'.segs.map Seg.restLength).sum = (st.segs.map Seg.restLength).sum ∧
    (st'.segs.map Seg.mass).sum = (st.segs.map Seg.mass).sum := by
  unfold splitBack at h
  cases h
  constructor <;>
  · simp only [map_insertIdx', List.map_set, Seg.mk']
    rw [sum_insertIdx_real _ _ _ (by rw [List.length_set, List.length_map]; omega),
      sum_set_real _ _ _ (by rw [List.length_map]; exact hidx),
      map_getD_zero _ rfl]
    ring

/-- The Pass B scan preserves both totals whenever it succeeds. -/
theorem passBScanAux_sums : ∀ (n j : ℕ) (st : RopeState) (idx : ℕ),
    idx < st.segs.length →
    ∀ (st' : RopeState) (i' : ℤ), passBScanAux st idx j n = .ok (st', i') →
    (st'.segs.map Seg.restLength).sum = (st.segs.map Seg.restLength).sum ∧
    (st'.segs.map Seg.mass).sum = (st.segs.map Seg.mass).sum := by
  intro n
  induction n with
  | zero =>
      intro j st idx _ st' i' h
      cases h
      exact ⟨rfl, rfl⟩
  | succ n ih =>
      intro j st idx hidx st' i' h
      unfold passBScanAux at h
      by_cases h1 : (st.segs.getD idx default).maxRestLength <
          (st.segs.getD idx default).dPos.getD j 0
      · rw [if_pos h1] at h
        by_cases h2 : (st.segs.getD idx default).dPoints.length = 0
        · rw [if_pos h2] at h
          exact absurd h (by simp)
        · rw [if_neg h2] at h
          by_cases h3 : j = 0
          · rw [if_pos h3] at h
            have h' : splitFront st idx = (st', i') := by
              rcases hsf : splitFront st idx with ⟨a, b⟩
              rw [hsf] at h
              cases h
              rfl
            exact splitFront_sums st idx hidx st' i' h'
          · rw [if_neg h3] at h
            by_cases h4 : j = (st.segs.getD idx default).dPos.length - 1
            · rw [if_pos h4] at h
              have h' : splitBack st idx = (st', i') := by
                rcases hsb : splitBack st idx with ⟨a, b⟩
                rw [hsb] at h
                cases h
                rfl
              exact splitBack_sums st idx hidx st' i' h'
            · rw [if_neg h4] at h
              exact absurd h (by simp)
      · rw [if_neg h1] at h
        exact ih (j + 1) st idx hidx st' i' h

/-- The Pass B driver loop preserves both totals whenever it succeeds. -/
theorem passBLoop_sums : ∀ (fuel : ℕ) (st : RopeState) (i : ℕ) (st' : RopeState),
    passBLoop fuel st i = .ok st' →
    (st'.segs.map Seg.restLength).sum = (st.segs.map Seg.restLength).sum ∧
    (st'.segs.map Seg.mass).sum = (st.segs.map Seg.mass).sum := by
  intro fuel
  induction fuel with
  | zero =>
      intro st i st' h
      cases h
      exact ⟨rfl, rfl⟩
  | succ fuel ih =>
      intro st i st' h
      unfold passBLoop at h
      by_cases hc : i < st.segs.length
      · rw [if_pos hc] at h
        rcases hB : postprocessTimeStepB st i with e | ⟨st2, i2⟩
        · rw [hB] at h
          exact absurd h (by simp)
        · rw [hB] at h
          obtain ⟨hS1, hS2⟩ := passBScanAux_sums _ 0 st i hc st2 i2 hB
          obtain ⟨hL1, hL2⟩ := ih st2 (i2 + 1).toNat st' h
          exact ⟨hL1.trans hS1, hL2.trans hS2⟩
      · rw [if_neg hc] at h
        cases h
        exact ⟨rfl, rfl⟩

/-- Claim C1: total rope rest length and total rope mass are conserved by
every simulation step.  (i) The sliding transport of
`RopeSegment.timeStep` changes partition entries `k` and `k+1` by the
equal and opposite amounts `∓ s_k·Δt`, so the segment's partition sum - and
its `restLength` field - are unchanged; (ii) re-meshing Pass A (merge /
slip-out) and (iii) Pass B (split) leave the sum of segment rest lengths
and the sum of segment masses over the whole rope unchanged (exactly, in
the real-arithmetic embedding). -/
theorem claim_C1_conservation :
    (∀ (delta : ℝ) (seg : Seg), SegInv seg →
      (segSlidingUpdate delta seg).dPos.sum = seg.dPos.sum ∧
      (segSlidingUpdate delta seg).restLength = seg.restLength) ∧
    (∀ (fuel : ℕ) (st : RopeState) (i : ℕ),
      ((passALoop fuel st i).segs.map Seg.restLength).sum =
        (st.segs.map Seg.restLength).sum ∧
      ((passALoop fuel st i).segs.map Seg.mass).sum = (st.segs.map Seg.mass).sum) ∧
    (∀ (fuel : ℕ) (st : RopeState) (i : ℕ) (st' : RopeState),
      passBLoop fuel st i = .ok st' →
      (st'.segs.map Seg.restLength).sum = (st.segs.map Seg.restLength).sum ∧
      (st'.segs.map Seg.mass).sum = (st.segs.map Seg.mass).sum) := by
  refine ⟨fun delta seg hinv => ⟨?_, ?_⟩, passALoop_sums, passBLoop_sums⟩
  · exact slidingLoopAux_dPos_sum delta seg.dPoints.length 0 seg (by rw [hinv.1]; omega)
  · exact (slidingLoopAux_fields delta seg.dPoints.length 0 seg).2.2.2.2.1

/-- Concrete deflection-point-free segment satisfying the structural
invariant, used to witness claim C1. -/
def segC1w : Seg :=
  { mass := 1, currentLength := 0, restLength := 5, minRestLength := 0,
    maxRestLength := 10, defaultRestLength := 5, elasticityConstant := 0,
    dampingCoefficient := 0, internalDamping := 0, springConstant := 0,
    dPoints := [], dPos := [5], dSpeeds := [],
    tensions := [], angles := [],
    currentStretchingForce := 0, currentElasticEnergy := 0 }

/-- Witness for C1: the sliding transport preserves the partition sum of a
concrete invariant-satisfying segment, and a successful Pass B run on a
concrete rope state preserves the total rest length. -/
theorem claim_C1_conservation_witness :
    (segSlidingUpdate 1 segC1w).dPos.sum = segC1w.dPos.sum ∧
    passBLoop 1 (RopeState.mk [] []) 0 = .ok (RopeState.mk [] []) ∧
    (((RopeState.mk [] []).segs.map Seg.restLength).sum =
      ((RopeState.mk [] []).segs.map Seg.restLength).sum) :=
  ⟨(claim_C1_conservation.1 1 segC1w ⟨rfl, rfl⟩).1, rfl,
    (claim_C1_conservation.2.2 1 (RopeState.mk [] []) 0 (RopeState.mk [] []) rfl).1⟩

/-! ### Preservation of the structural length invariant (claim C10) -/

/-- The rope-level structural invariant: every segment satisfies `SegInv`. -/
def RopeInv (st : RopeState) : Prop := ∀ seg ∈ st.segs, SegInv seg

theorem segInv_getD (st : RopeState) (idx : ℕ) (hinv : RopeInv st) :
    SegInv (st.segs.getD idx default) := by
  by_cases hidx : idx < st.segs.length
  · rw [List.getD_eq_getElem?_getD, List.getElem?_eq_getElem hidx]
    exact hinv _ (List.getElem_mem hidx)
  · rw [List.getD_eq_default _ _ (le_of_not_lt hidx)]
    exact ⟨rfl, rfl⟩

theorem passAFront_inv (st : RopeState) (idx : ℕ) (st' : RopeState) (i' : ℕ)
    (h : passAFront st idx = (st', i')) (hinv : RopeInv st) : RopeInv st' := by
  obtain ⟨hs1, hs2⟩ := segInv_getD st idx hinv
  obtain ⟨hp1, hp2⟩ := segInv_getD st (idx - 1) hinv
  unfold passAFront at h
  by_cases h1 : (st.segs.getD idx default).dPos.getD 0 0 <
      (st.segs.getD idx default).minRestLength
  · rw [if_pos h1] at h
    by_cases h2 : idx = 0
    · rw [if_pos h2] at h
      by_cases h3 : 0 < (st.segs.getD idx default).dPoints.length
      · rw [if_pos h3] at h
        cases h
        intro s hs
        rcases List.mem_or_eq_of_mem_set hs with hmem | rfl
        · exact hinv s hmem
        · -- lengths: (N+1) - 1 = (N - 1) + 1 given 0 < N
          constructor
          · simp only [List.length_drop, List.length_set]
            omega
          · simp only [List.length_drop]
            omega
      · rw [if_neg h3] at h
        cases h
        exact hinv
    · rw [if_neg h2] at h
      cases h
      intro s hs
      rcases List.mem_or_eq_of_mem_set (List.mem_of_mem_eraseIdx hs) with hmem | rfl
      · exact hinv s hmem
      · constructor
        · simp only [List.length_append, List.length_dropLast, List.length_set]
          omega
        · simp only [List.length_append]
          omega
  · rw [if_neg h1] at h
    cases h
    exact hinv

theorem passABack_inv (st : RopeState) (idx : ℕ) (st' : RopeState) (i' : ℕ)
    (h : passABack st idx = (st', i')) (hinv : RopeInv st) : RopeInv st' := by
  obtain ⟨hs1, hs2⟩ := segInv_getD st idx hinv
  obtain ⟨hn1, hn2⟩ := segInv_getD st (idx + 1) hinv
  unfold passABack at h
  by_cases h1 : 0 < (st.segs.getD idx default).dPoints.length ∧
      (st.segs.getD idx default).dPos.getD (st.segs.getD idx default).dPoints.length 0 <
        (st.segs.getD idx default).minRestLength
  · rw [if_pos h1] at h
    by_cases h2 : idx + 1 = st.segs.length
    · rw [if_pos h2, if_pos h1.1] at h
      cases h
      intro s hs
      rcases List.mem_or_eq_of_mem_set hs with hmem | rfl
      · exact hinv s hmem
      · constructor
        · simp only [List.length_dropLast, List.length_set]
          omega
        · simp only [List.length_dropLast]
          omega
    · rw [if_neg h2] at h
      cases h
      intro s hs
      rcases List.mem_or_eq_of_mem_set (List.mem_of_mem_eraseIdx hs) with hmem | rfl
      · exact hinv s hmem
      · constructor
        · simp only [List.length_append, List.length_drop, List.length_set]
          omega
        · simp only [List.length_append]
          omega
  · rw [if_neg h1] at h
    cases h
    exact hinv

theorem passALoop_inv : ∀ (fuel : ℕ) (st : RopeState) (i : ℕ),
    RopeInv st → RopeInv (passALoop fuel st i) := by
  intro fuel
  induction fuel with
  | zero => intro st i hinv; exact hinv
  | succ fuel ih =>
      intro st i hinv
      by_cases hc : i < st.segs.length
      · simp only [passALoop, if_pos hc]
        refine ih _ _ ?_
        have h1 := passAFront_inv st i _ _ rfl hinv
        exact passABack_inv _ _ _ _ rfl h1
      · simp only [passALoop, if_neg hc]
        exact hinv

theorem segInv_all_insert_set (segs : List Seg) (i j : ℕ) (a b : Seg)
    (h : ∀ s ∈ segs, SegInv s) (ha : SegInv a) (hb : SegInv b) :
    ∀ s ∈ (segs.set i a).insertIdx j b, SegInv s := by
  intro s hs
  by_cases hj : j ≤ (segs.set i a).length
  · rcases (List.mem_insertIdx hj).mp hs with rfl | hmem
    · exact hb
    · rcases List.mem_or_eq_of_mem_set hmem with hm | rfl
      · exact h s hm
      · exact ha
  · rw [List.insertIdx_of_length_lt _ _ _ (lt_of_not_le hj)] at hs
    rcases List.mem_or_eq_of_mem_set hs with hm | rfl
    · exact h s hm
    · exact ha

theorem splitFront_inv (st : RopeState) (idx : ℕ) (st' : RopeState) (i' : ℤ)
    (h : splitFront st idx = (st', i')) (hinv : RopeInv st) : RopeInv st' := by
  obtain ⟨hs1, hs2⟩ := segInv_getD st idx hinv
  unfold splitFront at h
  cases h
  exact segInv_all_insert_set _ _ _ _ _ hinv
    ⟨by rw [List.length_set]; exact hs1, hs2⟩ ⟨rfl, rfl⟩

theorem splitBack_inv (st : RopeState) (idx : ℕ) (st' : RopeState) (i' : ℤ)
    (h : splitBack st idx = (st', i')) (hinv : RopeInv st) : RopeInv st' := by
  obtain ⟨hs1, hs2⟩ := segInv_getD st idx hinv
  unfold splitBack at h
  cases h
  exact segInv_all_insert_set _ _ _ _ _ hinv
    ⟨by rw [List.length_set]; exact hs1, hs2⟩ ⟨rfl, rfl⟩

theorem passBScanAux_inv : ∀ (n j : ℕ) (st : RopeState) (idx : ℕ)
    (st' : RopeState) (i' : ℤ), passBScanAux st idx j n = .ok (st', i') →
    RopeInv st → RopeInv st' := by
  intro n
  induction n with
  | zero =>
      intro j st idx st' i' h hinv
      cases h
      exact hinv
  | succ n ih =>
      intro j st idx st' i' h hinv
      unfold passBScanAux at h
      by_cases h1 : (st.segs.getD idx default).maxRestLength <
          (st.segs.getD idx default).dPos.getD j 0
      · rw [if_pos h1] at h
        by_cases h2 : (st.segs.getD idx default).dPoints.length = 0
        · rw [if_pos h2] at h
          exact absurd h (by simp)
        · rw [if_neg h2] at h
          by_cases h3 : j = 0
          · rw [if_pos h3] at h
            have h' : splitFront st idx = (st', i') := by
              rcases hsf : splitFront st idx with ⟨a, b⟩
              rw [hsf] at h
              cases h
              rfl
            exact splitFront_inv st idx st' i' h' hinv
          · rw [if_neg h3] at h
            by_cases h4 : j = (st.segs.getD idx default).dPos.length - 1
            · rw [if_pos h4] at h
              have h' : splitBack st idx = (st', i') := by
                rcases hsb : splitBack st idx with ⟨a, b⟩
                rw [hsb] at h
                cases h
                rfl
              exact splitBack_inv st idx st' i' h' hinv
            · rw [if_neg h4] at h
              exact absurd h (by simp)
      · rw [if_neg h1] at h
        exact ih (j + 1) st idx st' i' h hinv

theorem passBLoop_inv : ∀ (fuel : ℕ) (st : RopeState) (i : ℕ) (st' : RopeState),
    passBLoop fuel st i = .ok st' → RopeInv st → RopeInv st' := by
  intro fuel
  induction fuel with
  | zero =>
      intro st i st' h hinv
      cases h
      exact hinv
  | succ fuel ih =>
      intro st i st' h hinv
      unfold passBLoop at h
      by_cases hc : i < st.segs.length
      · rw [if_pos hc] at h
        rcases hB : postprocessTimeStepB st i with e | ⟨st2, i2⟩
        · rw [hB] at h
          exact absurd h (by simp)
        · rw [hB] at h
          exact ih st2 (i2 + 1).toNat st' h (passBScanAux_inv _ 0 st i st2 i2 hB hinv)
      · rw [if_neg hc] at h
        cases h
        exact hinv

/-- Claim C10: every rope-segment operation - construction
(`RopeSegment` constructor), the sliding update of `timeStep`, slip-out
and merging in Pass A, and splitting in Pass B - preserves the structural
invariant `deflectionPointPositions.length = deflectionPoints.length + 1`
and `deflectionPointSlidingSpeeds.length = deflectionPoints.length`. -/
theorem claim_C10_structural_invariant :
    (∀ (end1 end2 : Body) (m rl minr maxr defr el dc intd : ℝ),
      SegInv (Seg.mk' end1 end2 m rl minr maxr defr el dc intd)) ∧
    (∀ (delta : ℝ) (seg : Seg), SegInv seg → SegInv (segSlidingUpdate delta seg)) ∧
    (∀ (fuel : ℕ) (st : RopeState) (i : ℕ), RopeInv st → RopeInv (passALoop fuel st i)) ∧
    (∀ (fuel : ℕ) (st : RopeState) (i : ℕ) (st' : RopeState),
      RopeInv st → passBLoop fuel st i = .ok st' → RopeInv st') := by
  refine ⟨fun _ _ _ _ _ _ _ _ _ _ => ⟨rfl, rfl⟩, ?_, passALoop_inv,
    fun fuel st i st' hinv h => passBLoop_inv fuel st i st' h hinv⟩
  intro delta seg hinv
  have hf := slidingLoopAux_fields delta seg.dPoints.length 0 seg
  unfold segSlidingUpdate
  constructor
  · rw [hf.2.2.2.2.2.2.2.2.2, hf.2.2.1]
    exact hinv.1
  · rw [hf.2.2.2.2.2.2.2.2.1, hf.2.2.1]
    exact hinv.2

/-- Witness for C10 at concrete inputs: a freshly constructed segment
satisfies the invariant, the sliding update keeps it, and a Pass B run on
a one-segment rope keeps it. -/
theorem claim_C10_structural_invariant_witness :
    SegInv segC1w ∧ SegInv (segSlidingUpdate 1 segC1w) ∧
    RopeInv (passALoop 1 (RopeState.mk [] [segC1w]) 0) := by
  have h1 : SegInv segC1w := ⟨rfl, rfl⟩
  refine ⟨h1, claim_C10_structural_invariant.2.1 1 segC1w h1, ?_⟩
  apply claim_C10_structural_invariant.2.2.1 1 (RopeState.mk [] [segC1w]) 0
  intro s hs
  rw [List.mem_singleton] at hs
  subst hs
  exact h1

/-! ### The constructor's joint-mass assignment (claim C7)

The `Rope` constructor (part_004 lines 158-163) ends its body/segment
construction with the check-and-fix loop

`for (let i = 1; i+1 < this.bodies.length; i++) {
   const newMass = ((i == 1) ? 1 : 0.5) * this.ropeSegments[i-1].mass
                 + ((i+1 == this.bodies.length-1) ? 1 : 0.5) * this.ropeSegments[i].mass;
   ...; this.bodies[i].mass = newMass; }`

which unconditionally overwrites the mass of every intermediate joint
body (the accompanying `console.warn` fires only on an inconsistency and
changes nothing), so the joint masses after construction are exactly the
values this loop assigns (followed by `postprocessTimeStep`, which is a
no-op whenever no partition entry is below the minimal rest length). -/

/-- One pass of the constructor's mass fix-up loop, from index `i` with
the given fuel (the caller supplies `bodies.length`, which dominates the
loop count). -/
noncomputable def massFixLoop : ℕ → RopeState → ℕ → RopeState
  | 0, st, _ => st
  | fuel + 1, st, i =>
      if i + 1 < st.bodies.length then
        let newMass := (if i = 1 then 1 else 0.5) * (st.segs.getD (i - 1) default).mass +
          (if i + 1 = st.bodies.length - 1 then 1 else 0.5) * (st.segs.getD i default).mass
        massFixLoop fuel { st with bodies := setBodyMass st.bodies i newMass } (i + 1)
      else st

/-- The joint-mass check-and-set loop of the `Rope` constructor (part_004
lines 158-163). -/
noncomputable def ropeConstructorMassFix (st : RopeState) : RopeState :=
  massFixLoop st.bodies.length st 1

theorem massFixLoop_len_segs : ∀ (fuel : ℕ) (st : RopeState) (i : ℕ),
    (massFixLoop fuel st i).bodies.length = st.bodies.length ∧
    (massFixLoop fuel st i).segs = st.segs := by
  intro fuel
  induction fuel with
  | zero => intro st i; exact ⟨rfl, rfl⟩
  | succ fuel ih =>
      intro st i
      by_cases hc : i + 1 < st.bodies.length
      · simp only [massFixLoop, if_pos hc]
        obtain ⟨h1, h2⟩ := ih _ (i + 1)
        refine ⟨h1.trans ?_, h2⟩
        simp [setBodyMass]
      · simp only [massFixLoop, if_neg hc]
        exact ⟨by trivial, by trivial⟩

theorem massFixLoop_getD_lt : ∀ (fuel : ℕ) (st : RopeState) (i k : ℕ), k < i →
    (massFixLoop fuel st i).bodies.getD k default = st.bodies.getD k default := by
  intro fuel
  induction fuel with
  | zero => intro st i k _; rfl
  | succ fuel ih =>
      intro st i k hk
      by_cases hc : i + 1 < st.bodies.length
      · simp only [massFixLoop, if_pos hc]
        rw [ih _ (i + 1) k (by omega)]
        simp only [setBodyMass]
        rw [getD_set_ite', if_neg (by omega)]
      · simp only [massFixLoop, if_neg hc]

theorem massFixLoop_getD_eq : ∀ (fuel : ℕ) (st : RopeState) (i k : ℕ),
    i ≤ k → k + 1 < st.bodies.length → k < i + fuel →
    (massFixLoop fuel st i).bodies.getD k default =
      { st.bodies.getD k default with mass :=
          (if k = 1 then 1 else 0.5) * (st.segs.getD (k - 1) default).mass +
          (if k + 1 = st.bodies.length - 1 then 1 else 0.5) *
            (st.segs.getD k default).mass } := by
  intro fuel
  induction fuel with
  | zero => intro st i k _ _ h; omega
  | succ fuel ih =>
      intro st i k hik hk hfuel
      have hc : i + 1 < st.bodies.length := by omega
      simp only [massFixLoop, if_pos hc]
      rcases eq_or_lt_of_le hik with h | h
      · subst h
        rw [massFixLoop_getD_lt fuel _ (i + 1) i (by omega)]
        simp only [setBodyMass]
        rw [getD_set_ite', if_pos ⟨rfl, by omega⟩]
      · rw [ih _ (i + 1) k h (by simp only [setBodyMass, List.length_set]; omega) (by omega)]
        simp only [setBodyMass, List.length_set]
        rw [getD_set_ite', if_neg (by omega)]

theorem massFixLoop_getD_last : ∀ (fuel : ℕ) (st : RopeState) (i k : ℕ),
    st.bodies.length ≤ k + 1 →
    (massFixLoop fuel st i).bodies.getD k default = st.bodies.getD k default := by
  intro fuel
  induction fuel with
  | zero => intro st i k _; rfl
  | succ fuel ih =>
      intro st i k hk
      by_cases hc : i + 1 < st.bodies.length
      · simp only [massFixLoop, if_pos hc]
        rw [ih _ (i + 1) k (by simp only [setBodyMass, List.length_set]; omega)]
        simp only [setBodyMass]
        rw [getD_set_ite', if_neg (by omega)]
      · simp only [massFixLoop, if_neg hc]

/-- Concrete three-segment rope state (all segment masses 1) for claim
C7: the loop assigns the joints next to the rope ends a full
neighbouring-segment mass. -/
noncomputable def stC7 : RopeState :=
  { bodies := [Body.mk' 0 0 0 0, Body.mk' 0 1 0 1.5, Body.mk' 0 2 0 1.5, Body.mk' 0 3 0 70]
    segs :=
      [{ mass := 1, currentLength := 0, restLength := 1, minRestLength := 0,
         maxRestLength := 10, defaultRestLength := 1, elasticityConstant := 0,
         dampingCoefficient := 0, internalDamping := 0, springConstant := 0,
         dPoints := [], dPos := [1], dSpeeds := [], tensions := [], angles := [],
         currentStretchingForce := 0, currentElasticEnergy := 0 },
       { mass := 1, currentLength := 0, restLength := 1, minRestLength := 0,
         maxRestLength := 10, defaultRestLength := 1, elasticityConstant := 0,
         dampingCoefficient := 0, internalDamping := 0, springConstant := 0,
         dPoints := [], dPos := [1], dSpeeds := [], tensions := [], angles := [],
         currentStretchingForce := 0, currentElasticEnergy := 0 },
       { mass := 1, currentLength := 0, restLength := 1, minRestLength := 0,
         maxRestLength := 10, defaultRestLength := 1, elasticityConstant := 0,
         dampingCoefficient := 0, internalDamping := 0, springConstant := 0,
         dPoints := [], dPos := [1], dSpeeds := [], tensions := [], angles := [],
         currentStretchingForce := 0, currentElasticEnergy := 0 }] }

/-- Counterexample to claim C7 as stated: in a three-segment rope with
all segment masses 1, the first intermediate joint receives
`1·(left segment mass) + ½·(right segment mass) = 1.5` from the
constructor's mass loop, not `½ + ½ = 1`. -/
theorem claim_C7_counterexample :
    ((ropeConstructorMassFix stC7).bodies.getD 1 default).mass ≠
      0.5 * (stC7.segs.getD 0 default).mass + 0.5 * (stC7.segs.getD 1 default).mass := by
  unfold ropeConstructorMassFix
  rw [massFixLoop_getD_eq stC7.bodies.length stC7 1 1 le_rfl
    (by norm_num [stC7]) (by norm_num [stC7])]
  have h1 : (stC7.segs.getD 0 default).mass = 1 := rfl
  have h2 : (stC7.segs.getD 1 default).mass = 1 := rfl
  have h3 : stC7.bodies.length = 4 := rfl
  simp only [h1, h2, h3]
  norm_num

/-- Claim C7, amended: after the `Rope` constructor's joint-mass loop,
intermediate joint `i` has mass
`((i = 1) ? 1 : ½)·(left segment mass) + ((i = last-1) ? 1 : ½)·(right
segment mass)` - the two joints adjacent to the rope ends absorb the
*full* mass of their outermost neighbouring segment (because the belayer
and climber bodies receive no rope mass), all strictly interior joints
get the ½/½ split - and the two outermost bodies are not touched. -/
theorem claim_C7_amended (st : RopeState) :
    (∀ i : ℕ, 1 ≤ i → i + 1 < st.bodies.length →
      ((ropeConstructorMassFix st).bodies.getD i default).mass =
        (if i = 1 then 1 else 0.5) * (st.segs.getD (i - 1) default).mass +
        (if i + 1 = st.bodies.length - 1 then 1 else 0.5) *
          (st.segs.getD i default).mass) ∧
    (ropeConstructorMassFix st).bodies.getD 0 default = st.bodies.getD 0 default ∧
    (ropeConstructorMassFix st).bodies.getD (st.bodies.length - 1) default =
      st.bodies.getD (st.bodies.length - 1) default := by
  refine ⟨fun i hi1 hi2 => ?_, ?_, ?_⟩
  · unfold ropeConstructorMassFix
    rw [massFixLoop_getD_eq st.bodies.length st 1 i hi1 hi2 (by omega)]
  · exact massFixLoop_getD_lt st.bodies.length st 1 0 Nat.zero_lt_one
  · -- the loop never writes the last body: index `i` is written only
    -- when `i + 1 < bodies.length`
    exact massFixLoop_getD_last st.bodies.length st 1 _ (by omega)

/-- Witness for the amended C7 at the concrete state `stC7`: joint 2 (the
one next to the climber in a three-segment rope) gets `½·m₁ + 1·m₂`, and
the belayer body is untouched. -/
theorem claim_C7_amended_witness :
    (1 ≤ 2 ∧ 2 + 1 < stC7.bodies.length) ∧
    ((ropeConstructorMassFix stC7).bodies.getD 2 default).mass =
      (if 2 = 1 then 1 else 0.5) * (stC7.segs.getD (2 - 1) default).mass +
      (if 2 + 1 = stC7.bodies.length - 1 then 1 else 0.5) *
        (stC7.segs.getD 2 default).mass ∧
    (ropeConstructorMassFix stC7).bodies.getD 0 default = stC7.bodies.getD 0 default := by
  have h := claim_C7_amended stC7
  have hlen : stC7.bodies.length = 4 := rfl
  exact ⟨⟨by norm_num, by rw [hlen]; norm_num⟩,
    h.1 2 (by norm_num) (by rw [hlen]; norm_num), h.2.1⟩

/-! ## RopeSegment.applyRopeForces (part_004 lines 444-544) and its
error conditions (claim C6) -/

/-- The fatal errors `RopeSegment.applyRopeForces` can throw (the source
raises `Error` with a message naming the segment index and its
deflection-point count; only the error kind matters here). -/
inductive RopeForcesError where
  | zeroEdgeLength          -- line 465: zero actual length of a part
  | zeroPartRestLength      -- line 473: zero rest length of a part
  | zeroTotalActualLength   -- line 499: zero actual length of the segment
  | zeroTotalRestLength     -- line 502: zero rest length of the segment
deriving DecidableEq

/-- The warnings `RopeSegment.applyRopeForces` can emit on `console.warn`;
they are collected as data and never influence the computation. -/
inductive RopeForcesWarning where
  | negativePartRestLength  -- line 471
  | smallPartRestLength     -- line 472
  | negativeTotalRestLength -- line 500
  | smallTotalRestLength    -- line 501
  | restLengthMismatch      -- line 512
deriving DecidableEq

/-- Accumulator of the edge loop of `applyRopeForces` (part_004 lines
460-497): running stretched length, running rest length, running elastic
energy, the `tmpTensionArr` and `tmpAngleArr` being built, the captured
first and last edge (`startDiff/startDiffLen/startTension` and
`endDiff/endDiffLen/endTension`; `none` while unset), and the warnings
emitted so far. -/
structure ForcesAcc where
  len : ℝ
  restSum : ℝ
  energy : ℝ
  tensions : List ℝ
  angles : List ℝ
  start : Option (Vec × ℝ × ℝ)
  last : Option (Vec × ℝ × ℝ)
  warnings : List RopeForcesWarning

/-- The edge loop of `applyRopeForces` (part_004 lines 460-497).  `l` is
the list of remaining polyline points, each paired with the rest-length
partition entry of the edge leading to it; `prevPos` the previous point.
A zero edge length and a partition entry that is exactly zero (the final
`else if` of the warning chain) are fatal; a negative or small-positive
entry only appends a warning. -/
noncomputable def forcesScan (ec minRest : ℝ) (warnShort : Bool) :
    Vec → List (Vec × ℝ) → ForcesAcc → Except RopeForcesError ForcesAcc
  | _, [], acc => .ok acc
  | prevPos, (pos, restLen) :: rest, acc =>
      let diff := pos.minus prevPos
      let diffLen := diff.norm
      if diffLen = 0 then .error .zeroEdgeLength
      else
        -- `if (restLen < 0) warn; else if (restLen > 0 && restLen < min/2
        --  && warningsShortRopeSegments) warn; else if (restLen == 0) throw;`
        let check : Except RopeForcesError (List RopeForcesWarning) :=
          if restLen < 0 then .ok (acc.warnings ++ [.negativePartRestLength])
          else if 0 < restLen ∧ restLen < minRest / 2 ∧ warnShort then
            .ok (acc.warnings ++ [.smallPartRestLength])
          else if restLen = 0 then .error .zeroPartRestLength
          else .ok acc.warnings
        match check with
        | .error e => .error e
        | .ok ws =>
            let tension := (diffLen - restLen) / (restLen * ec)
            let energy := acc.energy +
              0.5 * (diffLen - restLen) * (diffLen - restLen) / (restLen * ec)
            -- angle between incoming and outgoing rope; `endDiff` is set
            -- from the second edge on (`startDiffLen == 0` of the source
            -- holds exactly on the first edge, every kept edge having
            -- nonzero length)
            let angle := match acc.last with
              | some (endDiff, endDiffLen, _) =>
                  Real.arccos (min 1 (max (-1) (diff.dot endDiff / (diffLen * endDiffLen))))
              | none => 0
            let start := match acc.start with
              | none => some (diff, diffLen, tension)
              | some s => some s
            forcesScan ec minRest warnShort pos rest
              { len := acc.len + diffLen
                restSum := acc.restSum + restLen
                energy := energy
                tensions := acc.tensions ++ [tension]
                angles := acc.angles ++ [angle]
                start := start
                last := some (diff, diffLen, tension)
                warnings := ws }

/-- `RopeSegment.applyRopeForces` (part_004 lines 444-544): run the edge
loop over the polyline `bodyA → deflection points → bodyB`, check the
totals, store the updated lengths/tensions/angles/energy on the segment,
and apply the end-point spring forces, the transverse damping (only when
both end bodies are movable) and the longitudinal damping to the two end
bodies.  Returns the updated segment, the updated end bodies and the
collected warnings, or the first fatal error. -/
noncomputable def applyRopeForcesTail (seg : Seg) (bodyA bodyB : Body)
    (warnShort : Bool) (acc : ForcesAcc) :
    Except RopeForcesError (Seg × Body × Body × List RopeForcesWarning) :=
  if acc.len = 0 then .error .zeroTotalActualLength
  else
        -- `if (currentRestLength < 0) warn; else if (0 < … < min/2 && flag)
        --  warn; else if (currentRestLength == 0) throw;`
        let totalCheck : Except RopeForcesError (List RopeForcesWarning) :=
          if acc.restSum < 0 then .ok (acc.warnings ++ [.negativeTotalRestLength])
          else if 0 < acc.restSum ∧ acc.restSum < seg.minRestLength / 2 ∧ warnShort then
            .ok (acc.warnings ++ [.smallTotalRestLength])
          else if acc.restSum = 0 then .error .zeroTotalRestLength
          else .ok acc.warnings
        match totalCheck with
        | .error e => .error e
        | .ok ws =>
            let ws := ws ++
              (if |seg.restLength - acc.restSum| > EPS then [.restLengthMismatch] else [])
            let seg' := { seg with
              currentLength := acc.len
              restLength := acc.restSum
              currentElasticEnergy := acc.energy
              tensions := acc.tensions
              angles := acc.angles
              currentStretchingForce :=
                (acc.len - acc.restSum) / (acc.restSum * seg.elasticityConstant) }
            -- `start`/`last` are set after any successful scan over a
            -- nonempty polyline; the defaults are unreachable
            let s := acc.start.getD (Vec.zero, 0, 0)
            let e := acc.last.getD (Vec.zero, 0, 0)
            let directionA := s.1.times (1 / s.2.1)
            let directionB := e.1.times (1 / e.2.1)
            let bodyA1 := bodyA.applyForce (directionA.times s.2.2)
            let bodyB1 := bodyB.applyForce (directionB.times (-e.2.2))
            let lengthChangeRateA := -(bodyA.velocity.dot directionA)
            let lengthChangeRateB := bodyB.velocity.dot directionB
            let bodiesAfterPerp :=
              if 0 < bodyA.mass ∧ 0 < bodyB.mass then
                let relativeParallelA := directionA.times lengthChangeRateA
                let relativeParallelB := directionB.times lengthChangeRateB
                let relativePerpA := (bodyA.velocity.times (-1)).minus relativeParallelA
                let relativePerpB := bodyB.velocity.minus relativeParallelB
                let relativePerp := relativePerpA.plus relativePerpB
                let dampingForce := relativePerp.times (seg.dampingCoefficient / acc.restSum)
                (bodyA1.applyForce dampingForce, bodyB1.applyForce (dampingForce.times (-1)))
              else (bodyA1, bodyB1)
            let lengthChangeRate := lengthChangeRateA + lengthChangeRateB
            let bodyA2 := bodiesAfterPerp.1.applyForce
              (directionA.times (lengthChangeRate * seg.internalDamping / acc.restSum))
            let bodyB2 := bodiesAfterPerp.2.applyForce
              (directionB.times (-lengthChangeRate * seg.internalDamping / acc.restSum))
            .ok (seg', bodyA2, bodyB2, ws)

/-- `RopeSegment.applyRopeForces` (part_004 lines 444-544): the edge loop
(`forcesScan`) over the polyline `bodyA → deflection points → bodyB`,
followed by the total checks, segment update and force application
(`applyRopeForcesTail`). -/
noncomputable def applyRopeForces (seg : Seg) (bodyA bodyB : Body)
    (warnShort : Bool) : Except RopeForcesError (Seg × Body × Body × List RopeForcesWarning) :=
  match forcesScan seg.elasticityConstant seg.minRestLength warnShort
      bodyA.pos ((seg.dPoints.map Body.pos ++ [bodyB.pos]).zip seg.dPos)
      ⟨0, 0, 0, [], [], none, none, []⟩ with
  | .error e => .error e
  | .ok acc => applyRopeForcesTail seg bodyA bodyB warnShort acc

/-- The euclidean lengths of the polyline edges, as the scan computes
them: each point of `l` paired with the preceding point. -/
noncomputable def edgeLengths (prev : Vec) : List (Vec × ℝ) → List ℝ
  | [] => []
  | (pos, _) :: rest => (pos.minus prev).norm :: edgeLengths pos rest

theorem edgeLengths_length (l : List (Vec × ℝ)) : ∀ prev : Vec,
    (edgeLengths prev l).length = l.length := by
  induction l with
  | nil => intro prev; rfl
  | cons hd rest ih =>
      intro prev
      obtain ⟨pos, r⟩ := hd
      simp only [edgeLengths, List.length_cons, ih pos]

theorem edgeLengths_nonneg (l : List (Vec × ℝ)) : ∀ (prev : Vec),
    ∀ x ∈ edgeLengths prev l, 0 ≤ x := by
  induction l with
  | nil => intro prev x hx; cases hx
  | cons hd rest ih =>
      intro prev x hx
      obtain ⟨pos, r⟩ := hd
      rcases hx with _ | hx
      · show 0 ≤ (pos.minus prev).norm
        unfold Vec.norm Vec.minus
        rw [if_neg (by simp)]
        exact Real.sqrt_nonneg _
      · exact ih pos x (by assumption)

theorem sum_pos_of_mem_pos (l : List ℝ) (hne : l ≠ [])
    (hnonneg : ∀ x ∈ l, 0 ≤ x) (hnz : (0 : ℝ) ∉ l) : 0 < l.sum := by
  induction l with
  | nil => exact absurd rfl hne
  | cons a t ih =>
      rw [List.sum_cons]
      have ha : 0 < a := by
        rcases lt_or_eq_of_le (hnonneg a (List.mem_cons_self a t)) with h | h
        · exact h
        · exact absurd h.symm (fun hc => hnz (hc ▸ List.mem_cons_self a t))
      rcases eq_or_ne t [] with rfl | hne'
      · simpa using ha
      · have ht : 0 < t.sum := ih hne' (fun x hx => hnonneg x (List.mem_cons_of_mem _ hx))
          (fun hc => hnz (List.mem_cons_of_mem _ hc))
        linarith

/-- The edge loop errors exactly on a zero edge length or a partition
entry that is exactly zero. -/
theorem forcesScan_error_iff (ec minRest : ℝ) (warnShort : Bool) :
    ∀ (l : List (Vec × ℝ)) (prev : Vec) (acc : ForcesAcc),
      (∃ e, forcesScan ec minRest warnShort prev l acc = .error e) ↔
        (0 ∈ edgeLengths prev l ∨ ∃ p ∈ l, p.2 = 0) := by
  intro l
  induction l with
  | nil =>
      intro prev acc
      simp [forcesScan, edgeLengths]
  | cons hd rest ih =>
      intro prev acc
      obtain ⟨pos, restLen⟩ := hd
      simp only [forcesScan, edgeLengths]
      by_cases hd0 : (pos.minus prev).norm = 0
      · rw [if_pos hd0]
        constructor
        · intro _
          refine Or.inl ?_
          rw [← hd0]
          exact List.mem_cons_self _ _
        · intro _
          exact ⟨.zeroEdgeLength, rfl⟩
      · rw [if_neg hd0]
        have hmemhead : (0 : ℝ) ∈ (pos.minus prev).norm :: edgeLengths pos rest ↔
            0 ∈ edgeLengths pos rest := by
          constructor
          · intro h
            rcases List.mem_cons.mp h with h | h
            · exact absurd h.symm hd0
            · exact h
          · exact List.mem_cons_of_mem _
        by_cases hneg : restLen < 0
        · rw [if_pos hneg]
          rw [ih pos _]
          constructor
          · intro h
            rcases h with h | ⟨p, hp, hp2⟩
            · exact Or.inl (hmemhead.mpr h)
            · exact Or.inr ⟨p, List.mem_cons_of_mem _ hp, hp2⟩
          · intro h
            rcases h with h | ⟨p, hp, hp2⟩
            · exact Or.inl (hmemhead.mp h)
            · rcases List.mem_cons.mp hp with rfl | hp'
              · exact absurd hp2 (ne_of_lt hneg)
              · exact Or.inr ⟨p, hp', hp2⟩
        · rw [if_neg hneg]
          by_cases hsmall : 0 < restLen ∧ restLen < minRest / 2 ∧ warnShort
          · rw [if_pos hsmall]
            rw [ih pos _]
            constructor
            · intro h
              rcases h with h | ⟨p, hp, hp2⟩
              · exact Or.inl (hmemhead.mpr h)
              · exact Or.inr ⟨p, List.mem_cons_of_mem _ hp, hp2⟩
            · intro h
              rcases h with h | ⟨p, hp, hp2⟩
              · exact Or.inl (hmemhead.mp h)
              · rcases List.mem_cons.mp hp with rfl | hp'
                · exact absurd hp2 (ne_of_gt hsmall.1)
                · exact Or.inr ⟨p, hp', hp2⟩
          · rw [if_neg hsmall]
            by_cases hzero : restLen = 0
            · rw [if_pos hzero]
              constructor
              · intro _
                exact Or.inr ⟨(pos, restLen), List.mem_cons_self _ _, hzero⟩
              · intro _
                exact ⟨.zeroPartRestLength, rfl⟩
            · rw [if_neg hzero]
              rw [ih pos _]
              constructor
              · intro h
                rcases h with h | ⟨p, hp, hp2⟩
                · exact Or.inl (hmemhead.mpr h)
                · exact Or.inr ⟨p, List.mem_cons_of_mem _ hp, hp2⟩
              · intro h
                rcases h with h | ⟨p, hp, hp2⟩
                · exact Or.inl (hmemhead.mp h)
                · rcases List.mem_cons.mp hp with rfl | hp'
                  · exact absurd hp2 hzero
                  · exact Or.inr ⟨p, hp', hp2⟩

/-- On success the edge loop has accumulated the total stretched length
and the total rest length. -/
theorem forcesScan_ok_sums (ec minRest : ℝ) (warnShort : Bool) :
    ∀ (l : List (Vec × ℝ)) (prev : Vec) (acc acc' : ForcesAcc),
      forcesScan ec minRest warnShort prev l acc = .ok acc' →
      acc'.len = acc.len + (edgeLengths prev l).sum ∧
      acc'.restSum = acc.restSum + (l.map Prod.snd).sum := by
  intro l
  induction l with
  | nil =>
      intro prev acc acc' h
      cases h
      constructor <;> simp [edgeLengths]
  | cons hd rest ih =>
      intro prev acc acc' h
      obtain ⟨pos, restLen⟩ := hd
      simp only [forcesScan] at h
      by_cases hd0 : (pos.minus prev).norm = 0
      · rw [if_pos hd0] at h
        exact absurd h (by simp)
      · rw [if_neg hd0] at h
        have hstep : ∀ ws, forcesScan ec minRest warnShort pos rest
              { len := acc.len + (pos.minus prev).norm
                restSum := acc.restSum + restLen
                energy := acc.energy + 0.5 * ((pos.minus prev).norm - restLen) *
                  ((pos.minus prev).norm - restLen) / (restLen * ec)
                tensions := acc.tensions ++
                  [((pos.minus prev).norm - restLen) / (restLen * ec)]
                angles := acc.angles ++ [match acc.last with
                  | some (endDiff, endDiffLen, _) =>
                      Real.arccos (min 1 (max (-1)
                        ((pos.minus prev).dot endDiff / ((pos.minus prev).norm * endDiffLen))))
                  | none => 0]
                start := match acc.start with
                  | none => some (pos.minus prev, (pos.minus prev).norm,
                      ((pos.minus prev).norm - restLen) / (restLen * ec))
                  | some s => some s
                last := some (pos.minus prev, (pos.minus prev).norm,
                  ((pos.minus prev).norm - restLen) / (restLen * ec))
                warnings := ws } = .ok acc' →
            acc'.len = acc.len + ((pos.minus prev).norm :: edgeLengths pos rest).sum ∧
            acc'.restSum = acc.restSum + (restLen :: rest.map Prod.snd).sum := by
          intro ws hrec
          obtain ⟨h1, h2⟩ := ih pos _ acc' hrec
          constructor
          · rw [h1]; simp only [List.sum_cons]; ring
          · rw [h2]; simp only [List.sum_cons]; ring
        by_cases hneg : restLen < 0
        · rw [if_pos hneg] at h
          exact hstep _ h
        · rw [if_neg hneg] at h
          by_cases hsmall : 0 < restLen ∧ restLen < minRest / 2 ∧ warnShort
          · rw [if_pos hsmall] at h
            exact hstep _ h
          · rw [if_neg hsmall] at h
            by_cases hzero : restLen = 0
            · rw [if_pos hzero] at h
              exact absurd h (by simp)
            · rw [if_neg hzero] at h
              exact hstep _ h

/-- After a successful edge scan with a nonzero total stretched length,
the remainder of `applyRopeForces` errors exactly when the accumulated
total rest length is exactly zero: a negative or small-positive total
only appends a warning and the computation proceeds to the force
application. -/
theorem applyRopeForcesTail_error_iff (seg : Seg) (bodyA bodyB : Body)
    (warnShort : Bool) (acc : ForcesAcc) (hlen : acc.len ≠ 0) :
    (∃ e, applyRopeForcesTail seg bodyA bodyB warnShort acc = .error e) ↔
      acc.restSum = 0 := by
  unfold applyRopeForcesTail
  rw [if_neg hlen]
  by_cases hneg : acc.restSum < 0
  · rw [if_pos hneg]
    constructor
    · rintro ⟨e, he⟩
      exact Except.noConfusion he
    · intro h
      exact absurd h (ne_of_lt hneg)
  · rw [if_neg hneg]
    by_cases hsmall : 0 < acc.restSum ∧ acc.restSum < seg.minRestLength / 2 ∧ warnShort
    · rw [if_pos hsmall]
      constructor
      · rintro ⟨e, he⟩
        exact Except.noConfusion he
      · intro h
        exact absurd h (ne_of_gt hsmall.1)
    · rw [if_neg hsmall]
      by_cases hzero : acc.restSum = 0
      · rw [if_pos hzero]
        exact ⟨fun _ => hzero, fun _ => ⟨.zeroTotalRestLength, rfl⟩⟩
      · rw [if_neg hzero]
        constructor
        · rintro ⟨e, he⟩
          exact Except.noConfusion he
        · intro h
          exact absurd h hzero

/-- Claim C6: `RopeSegment.applyRopeForces` raises a fatal error if and
only if some sub-edge of the segment's polyline has current euclidean
length exactly 0, or some rest-length partition entry is exactly 0, or
the segment's total rest length (the sum of the partition entries) is
exactly 0.  A negative rest length, or a positive rest length below half
the minimal rest length, only appends a warning (warnings are collected
as data and by construction never influence the computed result), and the
computation proceeds. -/
theorem claim_C6_applyRopeForces_errors (seg : Seg) (bodyA bodyB : Body)
    (warnShort : Bool) (hinv : SegInv seg) :
    (∃ e, applyRopeForces seg bodyA bodyB warnShort = .error e) ↔
      0 ∈ edgeLengths bodyA.pos ((seg.dPoints.map Body.pos ++ [bodyB.pos]).zip seg.dPos) ∨
      (∃ r ∈ seg.dPos, r = 0) ∨ seg.dPos.sum = 0 := by
  have hlenpts : (seg.dPoints.map Body.pos ++ [bodyB.pos]).length = seg.dPos.length := by
    have h1 := hinv.1
    simp only [List.length_append, List.length_map, List.length_cons, List.length_nil]
    omega
  have hsnd : ((seg.dPoints.map Body.pos ++ [bodyB.pos]).zip seg.dPos).map Prod.snd =
      seg.dPos :=
    List.map_snd_zip _ _ (le_of_eq hlenpts.symm)
  have hmem : (∃ p ∈ (seg.dPoints.map Body.pos ++ [bodyB.pos]).zip seg.dPos, p.2 = 0) ↔
      ∃ r ∈ seg.dPos, r = 0 := by
    constructor
    · rintro ⟨p, hp, hp2⟩
      exact ⟨p.2, by rw [← hsnd]; exact List.mem_map_of_mem _ hp, hp2⟩
    · rintro ⟨r, hr, rfl⟩
      rw [← hsnd] at hr
      rcases List.mem_map.mp hr with ⟨p, hp, hp2⟩
      exact ⟨p, hp, hp2⟩
  unfold applyRopeForces
  rcases hscan : forcesScan seg.elasticityConstant seg.minRestLength warnShort bodyA.pos
      ((seg.dPoints.map Body.pos ++ [bodyB.pos]).zip seg.dPos)
      ⟨0, 0, 0, [], [], none, none, []⟩ with e | acc
  · have h1 := (forcesScan_error_iff _ _ _ _ _ _).mp ⟨e, hscan⟩
    constructor
    · intro _
      rcases h1 with h | h
      · exact Or.inl h
      · exact Or.inr (Or.inl (hmem.mp h))
    · intro _
      exact ⟨e, rfl⟩
  · have hnoerr : ¬ (0 ∈ edgeLengths bodyA.pos
        ((seg.dPoints.map Body.pos ++ [bodyB.pos]).zip seg.dPos) ∨
        ∃ p ∈ (seg.dPoints.map Body.pos ++ [bodyB.pos]).zip seg.dPos, p.2 = 0) := by
      rw [← forcesScan_error_iff seg.elasticityConstant seg.minRestLength warnShort _
        bodyA.pos ⟨0, 0, 0, [], [], none, none, []⟩]
      rintro ⟨e, he⟩
      rw [hscan] at he
      simp at he
    push_neg at hnoerr
    obtain ⟨h0edge, hpz⟩ := hnoerr
    obtain ⟨hlensum, hrestsum⟩ := forcesScan_ok_sums _ _ _ _ _ _ _ hscan
    have hrest' : acc.restSum = seg.dPos.sum := by
      rw [hrestsum, hsnd]
      ring
    have hpairs_ne : (seg.dPoints.map Body.pos ++ [bodyB.pos]).zip seg.dPos ≠ [] := by
      intro hc
      have hlc := congrArg List.length hc
      rw [List.length_zip, hlenpts] at hlc
      simp only [List.length_nil, min_self] at hlc
      have h1 := hinv.1
      omega
    have hlenpos : 0 < acc.len := by
      rw [hlensum]
      have hne : edgeLengths bodyA.pos
          ((seg.dPoints.map Body.pos ++ [bodyB.pos]).zip seg.dPos) ≠ [] := by
        intro hc
        have hlc := congrArg List.length hc
        rw [edgeLengths_length] at hlc
        exact hpairs_ne (List.length_eq_zero.mp (by simpa using hlc))
      have := sum_pos_of_mem_pos _ hne (edgeLengths_nonneg _ bodyA.pos) h0edge
      simpa using this
    have hRHS_aux : ¬ (∃ r ∈ seg.dPos, r = 0) := fun h => by
      obtain ⟨p, hp, hp0⟩ := hmem.mpr h
      exact hpz p hp hp0
    show (∃ e, applyRopeForcesTail seg bodyA bodyB warnShort acc = .error e) ↔ _
    rw [applyRopeForcesTail_error_iff seg bodyA bodyB warnShort acc (ne_of_gt hlenpos)]
    constructor
    · intro h
      refine Or.inr (Or.inr ?_)
      rw [← hrest']
      exact h
    · intro h
      rcases h with h | h | h
      · exact absurd h h0edge
      · exact absurd h hRHS_aux
      · rw [hrest']
        exact h

/-- Witness for C6 at a concrete segment (no deflection points, partition
`[5]`, end bodies one metre apart): none of the zero conditions holds, so
`applyRopeForces` does not raise. -/
theorem claim_C6_applyRopeForces_errors_witness :
    SegInv segC1w ∧
    ¬ ∃ e, applyRopeForces segC1w (Body.mk' 0 0 0 0) (Body.mk' 1 0 0 70) true = .error e := by
  have hinv : SegInv segC1w := ⟨rfl, rfl⟩
  refine ⟨hinv, fun h => ?_⟩
  rcases (claim_C6_applyRopeForces_errors segC1w (Body.mk' 0 0 0 0) (Body.mk' 1 0 0 70)
      true hinv).mp h with h1 | h2 | h3
  · have hz : (segC1w.dPoints.map Body.pos ++ [(Body.mk' 1 0 0 70).pos]).zip segC1w.dPos =
        [((Body.mk' 1 0 0 70).pos, 5)] := rfl
    rw [hz] at h1
    have he : edgeLengths (Body.mk' 0 0 0 0).pos [((Body.mk' 1 0 0 70).pos, 5)] =
        [((Body.mk' 1 0 0 70).pos.minus (Body.mk' 0 0 0 0).pos).norm] := rfl
    rw [he] at h1
    have hnorm : ((Body.mk' 1 0 0 70).pos.minus (Body.mk' 0 0 0 0).pos).norm = 1 := by
      show Vec.norm ⟨1 - 0, 0 - 0, 0 - 0, false⟩ = 1
      unfold Vec.norm
      rw [if_neg (by simp)]
      norm_num
    rw [hnorm] at h1
    rcases List.mem_singleton.mp h1 with h
    norm_num at h
  · rcases h2 with ⟨r, hr, hr0⟩
    have : r = 5 := List.mem_singleton.mp hr
    rw [this] at hr0
    norm_num at hr0
  · have : segC1w.dPos.sum = 5 := by
      show List.sum [(5 : ℝ)] = 5
      simp
    rw [this] at h3
    norm_num at h3

/-! ## Colours and snapshot serialisation (claim C8)

The `Color` class of src/unnamed/part_002 (lines 43-158) and the snapshot
round trip of src/resources/storage-manager.js.  JavaScript numbers are
modelled as rationals; `JSON.stringify` followed by `JSON.parse` is the
identity on finite numbers, strings, arrays and plain objects, so the
serialised form of a snapshot is the same value tree with every `Color`
replaced by the CSS string `Color.toJSON` produces (part_002 line 156),
and deserialisation is `deserializeObjectSnapshot`
(storage-manager.js lines 57-67) on that tree.  Number-to-string
conversion prints the full terminating decimal expansion (JavaScript
prints the shortest form; both satisfy the parse-print identity the round
trip relies on). -/

/-- The decimal digit character for `d`. -/
def digitChar (d : ℕ) : Char := Char.ofNat (48 + d)

/-- A character the regex class `[0-9]` accepts. -/
def isDigitChar (c : Char) : Bool := decide (48 ≤ c.toNat) && decide (c.toNat ≤ 57)

/-- Digit-extraction loop of the decimal printer; the fuel argument only
makes the recursion structural and is always sufficient when it bounds the
number being printed. -/
def natDigitsAux : ℕ → ℕ → List Char
  | 0, n => [digitChar n]
  | fuel + 1, n =>
      if n < 10 then [digitChar n]
      else natDigitsAux fuel (n / 10) ++ [digitChar (n % 10)]

/-- The decimal digit string of a natural number (most significant digit
first), as JavaScript prints integral numbers. -/
def natDigits (n : ℕ) : List Char := natDigitsAux n n

/-- The numeric value of a digit string (the model of `parseInt` on a
`[0-9]+` match). -/
def digitsVal (cs : List Char) : ℕ :=
  cs.foldl (fun a c => 10 * a + (c.toNat - 48)) 0

/-- Greedy `[0-9]+`: the longest digit prefix and its value, or `none`
if the input does not start with a digit. -/
def parseNatChars (cs : List Char) : Option (ℕ × List Char) :=
  if cs.takeWhile isDigitChar = [] then none
  else some (digitsVal (cs.takeWhile isDigitChar), cs.dropWhile isDigitChar)

/-- Match a literal character sequence. -/
def expectPrefix : List Char → List Char → Option (List Char)
  | [], cs => some cs
  | p :: ps, c :: cs => if c = p then expectPrefix ps cs else none
  | _ :: _, [] => none

/-- The separator `, ?` of the colour regexes: a comma followed by an
optional single space. -/
def expectCommaSpace : List Char → Option (List Char)
  | ',' :: ' ' :: rest => some rest
  | ',' :: rest => some rest
  | _ => none

/-- The model of `parseFloat` on a `[0-9]+(?:\.[0-9]+)?` match: integer
part, optionally a point and a fraction part (at least one digit). -/
def parseFloatChars (cs : List Char) : Option (ℚ × List Char) :=
  match parseNatChars cs with
  | none => none
  | some (ip, rest) =>
      match rest with
      | '.' :: rest2 =>
          match parseNatChars rest2 with
          | none => none
          | some (fp, rest3) =>
              some ((ip : ℚ) + (fp : ℚ) / 10 ^ (rest2.takeWhile isDigitChar).length, rest3)
      | _ => some ((ip : ℚ), rest)

/-- The regex `^rgb\(([0-9]+), ?([0-9]+), ?([0-9]+)\)$` of the `Color`
constructor (part_002 line 58). -/
def parseRgbChars (cs : List Char) : Option (ℕ × ℕ × ℕ) :=
  match expectPrefix ['r', 'g', 'b', '('] cs with
  | none => none
  | some cs1 =>
      match parseNatChars cs1 with
      | none => none
      | some (r, cs2) =>
          match expectCommaSpace cs2 with
          | none => none
          | some cs3 =>
              match parseNatChars cs3 with
              | none => none
              | some (g, cs4) =>
                  match expectCommaSpace cs4 with
                  | none => none
                  | some cs5 =>
                      match parseNatChars cs5 with
                      | none => none
                      | some (b, cs6) =>
                          match cs6 with
                          | [')'] => some (r, g, b)
                          | _ => none

/-- The regex `^rgba\(([0-9]+), ?([0-9]+), ?([0-9]+), ?([0-9]+(?:\.[0-9]+)?)\)$`
of the `Color` constructor (part_002 line 63). -/
def parseRgbaChars (cs : List Char) : Option (ℕ × ℕ × ℕ × ℚ) :=
  match expectPrefix ['r', 'g', 'b', 'a', '('] cs with
  | none => none
  | some cs1 =>
      match parseNatChars cs1 with
      | none => none
      | some (r, cs2) =>
          match expectCommaSpace cs2 with
          | none => none
          | some cs3 =>
              match parseNatChars cs3 with
              | none => none
              | some (g, cs4) =>
                  match expectCommaSpace cs4 with
                  | none => none
                  | some cs5 =>
                      match parseNatChars cs5 with
                      | none => none
                      | some (b, cs6) =>
                          match expectCommaSpace cs6 with
                          | none => none
                          | some cs7 =>
                              match parseFloatChars cs7 with
                              | none => none
                              | some (a, cs8) =>
                                  match cs8 with
                                  | [')'] => some (r, g, b, a)
                                  | _ => none

/-- A hexadecimal digit's value (`[0-9A-Fa-f]`). -/
def hexDigitVal (c : Char) : Option ℕ :=
  if 48 ≤ c.toNat ∧ c.toNat ≤ 57 then some (c.toNat - 48)
  else if 65 ≤ c.toNat ∧ c.toNat ≤ 70 then some (c.toNat - 55)
  else if 97 ≤ c.toNat ∧ c.toNat ≤ 102 then some (c.toNat - 87)
  else none

/-- Two hexadecimal digits (`[0-9A-Fa-f]{2}` with `parseInt(…, 16)`). -/
def hexPairVal (c1 c2 : Char) : Option ℕ :=
  match hexDigitVal c1, hexDigitVal c2 with
  | some h1, some h2 => some (16 * h1 + h2)
  | _, _ => none

/-- The regex `^#([0-9A-Fa-f]{2})([0-9A-Fa-f]{2})([0-9A-Fa-f]{2})$`
(part_002 line 69). -/
def parseHex6Chars (cs : List Char) : Option (ℕ × ℕ × ℕ) :=
  match cs with
  | '#' :: c1 :: c2 :: c3 :: c4 :: c5 :: c6 :: [] =>
      match hexPairVal c1 c2, hexPairVal c3 c4, hexPairVal c5 c6 with
      | some r, some g, some b => some (r, g, b)
      | _, _, _ => none
  | _ => none

/-- The regex for `#rrggbbaa` (part_002 line 74); the alpha byte is
divided by 255. -/
def parseHex8Chars (cs : List Char) : Option (ℕ × ℕ × ℕ × ℚ) :=
  match cs with
  | '#' :: c1 :: c2 :: c3 :: c4 :: c5 :: c6 :: c7 :: c8 :: [] =>
      match hexPairVal c1 c2, hexPairVal c3 c4, hexPairVal c5 c6, hexPairVal c7 c8 with
      | some r, some g, some b, some a => some (r, g, b, (a : ℚ) / 255)
      | _, _, _, _ => none
  | _ => none

/-- The `Color` class of part_002 (lines 43-94): red, green, blue in
0-255 and alpha in 0-1, each a JavaScript number (modelled as ℚ). -/
structure Color where
  r : ℚ
  g : ℚ
  b : ℚ
  a : ℚ
deriving DecidableEq

/-- `limit` of part_002 (lines 36-38): `max(min(val, ma), mi)`. -/
def limit (val mi ma : ℚ) : ℚ := max (min val ma) mi

/-- `Math.round`: round half towards positive infinity. -/
def jsRound (q : ℚ) : ℤ := ⌊q + 1 / 2⌋

/-- One colour channel as printed by `Color.toString` (part_002 lines
146-148): `Math.round(limit(x, 0, 255))`, then decimal digits. -/
def channelChars (x : ℚ) : List Char := natDigits (jsRound (limit x 0 255)).toNat

/-- The fraction digits of `q ∈ (0, 1)`: the full `q.den`-digit decimal
expansion (exact whenever `q.den` divides `10 ^ q.den`, i.e. whenever `q`
has a terminating decimal expansion, which every JavaScript double has). -/
def fracDigits (q : ℚ) : List Char :=
  List.replicate (q.den - (natDigits (q.num.toNat * 10 ^ q.den / q.den)).length) '0' ++
    natDigits (q.num.toNat * 10 ^ q.den / q.den)

/-- The decimal exponent of `q ∈ (0, 1)`: the smallest `e ≥ 1` with
`q · 10^e ≥ 1` (fuel-bounded search; `q.den` steps always suffice since
`q ≥ 1 / q.den`). -/
def findExpAux (q : ℚ) : ℕ → ℕ → ℕ
  | 0, e => e
  | fuel + 1, e => if 1 ≤ q * 10 ^ e then e else findExpAux q fuel (e + 1)

/-- The positive decimal exponent `e` of `q ∈ (0, 1)`, so that the
mantissa `q · 10^e` lies in `[1, 10)`. -/
def findExp (q : ℚ) : ℕ := findExpAux q q.den 1

/-- JavaScript exponential notation for `q ∈ (0, 10^-6)` as ECMA-262
`Number::toString` emits it: mantissa `q · 10^e ∈ [1, 10)` printed as
integer digit, then `.` and fraction digits when the mantissa is not
integral, then `e-` and the exponent (so `10^-7` prints as `1e-7`).  The
mantissa's fraction uses the full terminating expansion where JavaScript
prints the shortest digit string for the underlying double. -/
def expChars (q : ℚ) : List Char :=
  natDigits ⌊q * 10 ^ findExp q⌋.toNat ++
    (if q * 10 ^ findExp q - ⌊q * 10 ^ findExp q⌋ = 0 then []
      else '.' :: fracDigits (q * 10 ^ findExp q - ⌊q * 10 ^ findExp q⌋)) ++
    'e' :: '-' :: natDigits (findExp q)

/-- The alpha value as printed into the template string by JavaScript
number-to-string conversion: `0` prints as `"0"`, values of `[10^-6, 1)`
in positional notation as `"0." ++ fraction digits`, and positive values
below `10^-6` in exponential notation (ECMA-262 uses the positional form
only while the decimal exponent stays above `-6`). -/
def alphaChars (q : ℚ) : List Char :=
  if q = 0 then ['0']
  else if 1 / 10 ^ 6 ≤ q then '0' :: '.' :: fracDigits q
  else expChars q

/-- `Color.toString` (part_002 lines 144-150): `rgb(r, g, b)` when
`a >= 1`, else `rgba(r, g, b, limit(a, 0, 1))`. -/
def colorToChars (c : Color) : List Char :=
  if 1 ≤ c.a then
    ['r', 'g', 'b', '('] ++ channelChars c.r ++ [',', ' '] ++ channelChars c.g ++
      [',', ' '] ++ channelChars c.b ++ [')']
  else
    ['r', 'g', 'b', 'a', '('] ++ channelChars c.r ++ [',', ' '] ++ channelChars c.g ++
      [',', ' '] ++ channelChars c.b ++ [',', ' '] ++ alphaChars (limit c.a 0 1) ++ [')']

/-- `Color.toString` / `Color.toJSON` (part_002 lines 144-158). -/
def colorToString (c : Color) : String := String.mk (colorToChars c)

/-- The string branch of the `Color` constructor (part_002 lines 57-80):
try the `rgb(…)` regex, then `rgba(…)`, then `#rrggbb`, then `#rrggbbaa`;
on no match every channel keeps its initial value (black, alpha 1). -/
def colorFromChars (cs : List Char) : Color :=
  match parseRgbChars cs with
  | some (r, g, b) => ⟨r, g, b, 1⟩
  | none =>
      match parseRgbaChars cs with
      | some (r, g, b, a) => ⟨r, g, b, a⟩
      | none =>
          match parseHex6Chars cs with
          | some (r, g, b) => ⟨r, g, b, 1⟩
          | none =>
              match parseHex8Chars cs with
              | some (r, g, b, a) => ⟨r, g, b, a⟩
              | none => ⟨0, 0, 0, 1⟩

/-- `new Color(s)` for a string argument. -/
def colorFromString (s : String) : Color := colorFromChars s.data

/-- The object key `color`, treated specially by the snapshot deserialiser
(storage-manager.js line 61). -/
def colorKey : List Char := ['c', 'o', 'l', 'o', 'r']

mutual
/-- A JSON-compatible snapshot value tree (the `ObjectSnapshot` shape of
part_004 lines 36-45): numbers, strings, `Color` objects, arrays, and
plain objects with string keys. -/
inductive SnapVal where
  | num (q : ℚ)
  | str (s : List Char)
  | color (c : Color)
  | arr (l : SnapList)
  | obj (fs : SnapFields)

/-- The elements of a JSON array of snapshot values. -/
inductive SnapList where
  | nil
  | cons (v : SnapVal) (t : SnapList)

/-- The property list of a JSON object: string keys with snapshot values. -/
inductive SnapFields where
  | nil
  | cons (key : List Char) (v : SnapVal) (t : SnapFields)
end

mutual
/-- `JSON.parse (JSON.stringify v)`: the identity on finite numbers,
strings, arrays and plain objects, while every `Color` is replaced by the
CSS string its `toJSON` method emits (part_002 line 156). -/
def serializeSnap : SnapVal → SnapVal
  | .num q => .num q
  | .str s => .str s
  | .color c => .str (colorToChars c)
  | .arr l => .arr (serializeSnapList l)
  | .obj fs => .obj (serializeSnapFields fs)

/-- Serialisation mapped over an array. -/
def serializeSnapList : SnapList → SnapList
  | .nil => .nil
  | .cons v t => .cons (serializeSnap v) (serializeSnapList t)

/-- Serialisation mapped over an object's properties. -/
def serializeSnapFields : SnapFields → SnapFields
  | .nil => .nil
  | .cons key v t => .cons key (serializeSnap v) (serializeSnapFields t)
end

/-- `new Color(x)` as the deserialiser calls it on the value of a `color`
property (storage-manager.js line 62).  In a serialised snapshot that
value is always the string `Color.toJSON` produced; on the remaining
value shapes (never produced by serialisation) the JavaScript constructor
would build a colour from non-numeric arguments, and they are modelled as
left unchanged. -/
def reviveColor : SnapVal → SnapVal
  | .str s => .color (colorFromChars s)
  | v => v

mutual
/-- `deserializeObjectSnapshot` (storage-manager.js lines 57-67) on an
already-parsed value tree: every object property named `color` is revived
through the `Color` constructor, every other object- or array-valued
property is deserialised recursively, and primitive property values are
left unchanged. -/
def deserializeSnap : SnapVal → SnapVal
  | .num q => .num q
  | .str s => .str s
  | .color c => .color c
  | .arr l => .arr (deserializeSnapList l)
  | .obj fs => .obj (deserializeSnapFields fs)

/-- Deserialisation mapped over an array (array indices are never the key
`color`, so every element is handled by the recursive branch). -/
def deserializeSnapList : SnapList → SnapList
  | .nil => .nil
  | .cons v t => .cons (deserializeSnap v) (deserializeSnapList t)

/-- Deserialisation of an object's property list. -/
def deserializeSnapFields : SnapFields → SnapFields
  | .nil => .nil
  | .cons key v t =>
      .cons key (if key = colorKey then reviveColor v else deserializeSnap v)
        (deserializeSnapFields t)
end

mutual
/-- The equality notion of the claim: numbers, strings and keys compare by
value, colours compare by their CSS text. -/
def snapEqB : SnapVal → SnapVal → Bool
  | .num a, .num b => decide (a = b)
  | .str a, .str b => decide (a = b)
  | .color a, .color b => decide (colorToChars a = colorToChars b)
  | .arr a, .arr b => snapListEqB a b
  | .obj a, .obj b => snapFieldsEqB a b
  | _, _ => false

/-- Element-wise snapshot equality of arrays. -/
def snapListEqB : SnapList → SnapList → Bool
  | .nil, .nil => true
  | .cons v t, .cons w u => snapEqB v w && snapListEqB t u
  | _, _ => false

/-- Property-wise snapshot equality of objects. -/
def snapFieldsEqB : SnapFields → SnapFields → Bool
  | .nil, .nil => true
  | .cons k v t, .cons k2 w u => decide (k = k2) && snapEqB v w && snapFieldsEqB t u
  | _, _ => false
end

/-- A colour whose printed alpha parses back exactly: the effective alpha
`limit(a, 0, 1)` is printed positionally (it is `0`, or at least `10^-6`
so that JavaScript does not switch to the exponential notation the rgba
regex rejects) and has a terminating decimal expansion of at most `den`
digits (true of every dyadic rational, hence of every JavaScript
double). -/
def printableColorB (c : Color) : Bool :=
  (decide (limit c.a 0 1 = 0) || decide (1 / 10 ^ 6 ≤ limit c.a 0 1)) &&
    decide ((limit c.a 0 1).den ∣ 10 ^ (limit c.a 0 1).den)

/-- The value of a `color` property in a well-formed snapshot tree: a
printable `Color` object. -/
def goodColorSlotB : SnapVal → Bool
  | .color c => printableColorB c
  | _ => false

mutual
/-- A well-formed snapshot tree: `Color` values sit exactly at object
properties named `color` (so `deserializeObjectSnapshot` revives each of
them and nothing else), and every colour is printable. -/
def goodSnapB : SnapVal → Bool
  | .num _ => true
  | .str _ => true
  | .color _ => false
  | .arr l => goodSnapListB l
  | .obj fs => goodSnapFieldsB fs

/-- Well-formedness of every array element. -/
def goodSnapListB : SnapList → Bool
  | .nil => true
  | .cons v t => goodSnapB v && goodSnapListB t

/-- Well-formedness of an object's properties: the `color` property holds
a printable `Color`, every other property a well-formed value. -/
def goodSnapFieldsB : SnapFields → Bool
  | .nil => true
  | .cons key v t =>
      (if key = colorKey then goodColorSlotB v else goodSnapB v) && goodSnapFieldsB t
end

/-! ### Correctness of the digit printer against the digit parser -/

theorem digitChar_toNat (d : ℕ) (hd : d < 10) : (digitChar d).toNat = 48 + d := by
  interval_cases d <;> rfl

theorem isDigitChar_digitChar (d : ℕ) (hd : d < 10) :
    isDigitChar (digitChar d) = true := by
  interval_cases d <;> rfl

theorem natDigitsAux_ne_nil (fuel n : ℕ) : natDigitsAux fuel n ≠ [] := by
  cases fuel with
  | zero => exact List.cons_ne_nil _ _
  | succ fuel =>
      rw [natDigitsAux]
      split_ifs
      · exact List.cons_ne_nil _ _
      · intro hc
        simp at hc

theorem natDigits_ne_nil (n : ℕ) : natDigits n ≠ [] := natDigitsAux_ne_nil n n

theorem natDigitsAux_all : ∀ fuel n : ℕ, n ≤ fuel →
    ∀ c ∈ natDigitsAux fuel n, isDigitChar c = true := by
  intro fuel
  induction fuel with
  | zero =>
      intro n hn c hc
      have : n = 0 := by omega
      subst this
      rw [List.mem_singleton.mp hc]
      exact isDigitChar_digitChar 0 (by norm_num)
  | succ fuel ih =>
      intro n hn c hc
      rw [natDigitsAux] at hc
      split_ifs at hc with h
      · rw [List.mem_singleton.mp hc]
        exact isDigitChar_digitChar n h
      · rcases List.mem_append.mp hc with h1 | h2
        · exact ih (n / 10) (by omega) c h1
        · rw [List.mem_singleton.mp h2]
          exact isDigitChar_digitChar _ (Nat.mod_lt _ (by norm_num))

theorem natDigits_all (n : ℕ) : ∀ c ∈ natDigits n, isDigitChar c = true :=
  natDigitsAux_all n n (Nat.le_refl n)

theorem digitsVal_append_singleton (l : List Char) (c : Char) :
    digitsVal (l ++ [c]) = 10 * digitsVal l + (c.toNat - 48) := by
  unfold digitsVal
  rw [List.foldl_append]
  rfl

theorem digitsVal_singleton_digit (n : ℕ) (h : n < 10) :
    digitsVal [digitChar n] = n := by
  unfold digitsVal
  simp only [List.foldl_cons, List.foldl_nil, Nat.mul_zero, Nat.zero_add]
  rw [digitChar_toNat n h]
  omega

theorem digitsVal_natDigitsAux : ∀ fuel n : ℕ, n ≤ fuel →
    digitsVal (natDigitsAux fuel n) = n := by
  intro fuel
  induction fuel with
  | zero =>
      intro n hn
      have : n = 0 := by omega
      subst this
      exact digitsVal_singleton_digit 0 (by norm_num)
  | succ fuel ih =>
      intro n hn
      rw [natDigitsAux]
      split_ifs with h
      · exact digitsVal_singleton_digit n h
      · rw [digitsVal_append_singleton, ih (n / 10) (by omega),
          digitChar_toNat _ (Nat.mod_lt _ (by norm_num))]
        omega

theorem digitsVal_natDigits (n : ℕ) : digitsVal (natDigits n) = n :=
  digitsVal_natDigitsAux n n (Nat.le_refl n)

theorem natDigitsAux_length_le : ∀ fuel k n : ℕ, 1 ≤ k → n < 10 ^ k → n ≤ fuel →
    (natDigitsAux fuel n).length ≤ k := by
  intro fuel
  induction fuel with
  | zero => intro k n hk _ _; simp [natDigitsAux]; omega
  | succ fuel ih =>
      intro k n hk hn hfuel
      rw [natDigitsAux]
      split_ifs with h
      · simp
        omega
      · rw [List.length_append, List.length_singleton]
        have hk2 : 2 ≤ k := by
          by_contra hk1
          have : k = 1 := by omega
          subst this
          rw [pow_one] at hn
          omega
        have hdiv : n / 10 < 10 ^ (k - 1) := by
          rw [Nat.div_lt_iff_lt_mul (by norm_num)]
          calc n < 10 ^ k := hn
          _ = 10 ^ (k - 1) * 10 := by
              rw [← pow_succ]
              congr 1
              omega
        have := ih (k - 1) (n / 10) (by omega) hdiv (by omega)
        omega

theorem natDigits_length_le (k : ℕ) : ∀ n : ℕ, 1 ≤ k → n < 10 ^ k →
    (natDigits n).length ≤ k := fun n hk hn =>
  natDigitsAux_length_le n k n hk hn (Nat.le_refl n)

theorem takeWhile_digits_append (l : List Char) (rest : List Char)
    (hall : ∀ c ∈ l, isDigitChar c = true)
    (hrest : ∀ c t, rest = c :: t → isDigitChar c = false) :
    (l ++ rest).takeWhile isDigitChar = l ∧
    (l ++ rest).dropWhile isDigitChar = rest := by
  induction l with
  | nil =>
      simp only [List.nil_append]
      cases rest with
      | nil => exact ⟨rfl, rfl⟩
      | cons c t =>
          rw [List.takeWhile_cons, List.dropWhile_cons]
          rw [hrest c t rfl]
          exact ⟨rfl, rfl⟩
  | cons a l ih =>
      have ha := hall a (List.mem_cons_self a l)
      obtain ⟨ih1, ih2⟩ := ih (fun c hc => hall c (List.mem_cons_of_mem a hc))
      simp only [List.cons_append, List.takeWhile_cons, List.dropWhile_cons, ha, if_true]
      exact ⟨by rw [ih1], ih2⟩

theorem parseNatChars_digits (n : ℕ) (rest : List Char)
    (hrest : ∀ c t, rest = c :: t → isDigitChar c = false) :
    parseNatChars (natDigits n ++ rest) = some (n, rest) := by
  obtain ⟨ht, hd⟩ := takeWhile_digits_append (natDigits n) rest (natDigits_all n) hrest
  rw [parseNatChars, ht, hd, if_neg (natDigits_ne_nil n), digitsVal_natDigits]

theorem expectPrefix_append (p rest : List Char) : expectPrefix p (p ++ rest) = some rest := by
  induction p with
  | nil => rfl
  | cons c p ih => simp [expectPrefix, ih]

theorem digitsVal_replicate_zero (m : ℕ) (l : List Char) :
    digitsVal (List.replicate m '0' ++ l) = digitsVal l := by
  induction m with
  | zero => rfl
  | succ m ih =>
      rw [List.replicate_succ, List.cons_append]
      show List.foldl _ (10 * 0 + ('0'.toNat - 48)) _ = _
      exact ih

theorem isDigitChar_zero_char : isDigitChar '0' = true := rfl

theorem isDigitChar_dot : isDigitChar '.' = false := rfl

theorem isDigitChar_comma : isDigitChar ',' = false := rfl

theorem isDigitChar_rparen : isDigitChar ')' = false := rfl

theorem parseNatChars_digits_comma (n : ℕ) (rest : List Char) :
    parseNatChars (natDigits n ++ ([',', ' '] ++ rest)) = some (n, [',', ' '] ++ rest) :=
  parseNatChars_digits n _ (fun c t h => by
    injection h with h1 _
    subst h1
    rfl)

theorem parseNatChars_digits_rparen (n : ℕ) :
    parseNatChars (natDigits n ++ [')']) = some (n, [')']) :=
  parseNatChars_digits n _ (fun c t h => by
    injection h with h1 _
    subst h1
    rfl)

theorem expectCommaSpace_append (rest : List Char) :
    expectCommaSpace ([',', ' '] ++ rest) = some rest := rfl

theorem parseRgbChars_print (r g b : ℚ) :
    parseRgbChars (['r', 'g', 'b', '('] ++ channelChars r ++ [',', ' '] ++
        channelChars g ++ [',', ' '] ++ channelChars b ++ [')']) =
      some ((jsRound (limit r 0 255)).toNat, (jsRound (limit g 0 255)).toNat,
        (jsRound (limit b 0 255)).toNat) := by
  simp only [channelChars, List.append_assoc, parseRgbChars, expectPrefix_append,
    parseNatChars_digits_comma, parseNatChars_digits_rparen, expectCommaSpace_append]

theorem parseRgbChars_rgba_none (rest : List Char) :
    parseRgbChars (['r', 'g', 'b', 'a', '('] ++ rest) = none := rfl

theorem isDigitChar_replicate_zero (m : ℕ) : ∀ c ∈ List.replicate m '0', isDigitChar c = true := by
  intro c hc
  rw [List.eq_of_mem_replicate hc]
  rfl

theorem parseNatChars_zero_dot (rest : List Char) :
    parseNatChars ('0' :: '.' :: rest) = some (0, '.' :: rest) := rfl

theorem fracDigits_all (q : ℚ) : ∀ c ∈ fracDigits q, isDigitChar c = true := by
  intro c hc
  rw [fracDigits] at hc
  rcases List.mem_append.mp hc with h1 | h2
  · exact isDigitChar_replicate_zero _ c h1
  · exact natDigits_all _ c h2

theorem fracDigits_ne_nil (q : ℚ) : fracDigits q ≠ [] := by
  rw [fracDigits]
  intro hc
  exact natDigits_ne_nil _ (List.append_eq_nil.mp hc).2

theorem parseRgbaChars_print (r g b : ℚ) (aCs : List Char) (q : ℚ)
    (hq : parseFloatChars (aCs ++ [')']) = some (q, [')'])) :
    parseRgbaChars (['r', 'g', 'b', 'a', '('] ++ channelChars r ++ [',', ' '] ++
        channelChars g ++ [',', ' '] ++ channelChars b ++ [',', ' '] ++ aCs ++ [')']) =
      some ((jsRound (limit r 0 255)).toNat, (jsRound (limit g 0 255)).toNat,
        (jsRound (limit b 0 255)).toNat, q) := by
  simp only [channelChars, List.append_assoc, parseRgbaChars, expectPrefix_append,
    parseNatChars_digits_comma, parseNatChars_digits_rparen, expectCommaSpace_append, hq]

theorem parseFloatChars_alphaChars (q : ℚ) (h0 : 0 ≤ q) (h1 : q < 1)
    (hrange : q = 0 ∨ 1 / 10 ^ 6 ≤ q) (hdvd : q.den ∣ 10 ^ q.den) :
    parseFloatChars (alphaChars q ++ [')']) = some (q, [')']) := by
  by_cases hq0 : q = 0
  · subst hq0
    have h1' : alphaChars 0 ++ [')'] = ['0', ')'] := rfl
    have h2' : parseFloatChars ['0', ')'] = some (((0 : ℕ) : ℚ), [')']) := rfl
    rw [h1', h2', Nat.cast_zero]
  · have hpos : 1 / 10 ^ 6 ≤ q := hrange.resolve_left hq0
    have hnum_pos : 0 < q.num := Rat.num_pos.mpr (lt_of_le_of_ne h0 (Ne.symm hq0))
    have hden_pos : 0 < q.den := Nat.pos_of_ne_zero q.den_nz
    have hnum_lt : q.num < (q.den : ℤ) := by
      have hq : (q.num : ℚ) / (q.den : ℚ) < 1 := by
        rw [Rat.num_div_den]
        exact h1
      have hden' : (0 : ℚ) < (q.den : ℚ) := by exact_mod_cast hden_pos
      rw [div_lt_one hden'] at hq
      exact_mod_cast hq
    have hNlt : q.num.toNat * 10 ^ q.den / q.den < 10 ^ q.den := by
      rw [Nat.div_lt_iff_lt_mul hden_pos]
      have htn : q.num.toNat < q.den := by omega
      calc q.num.toNat * 10 ^ q.den < q.den * 10 ^ q.den :=
            (Nat.mul_lt_mul_right (Nat.pos_pow_of_pos _ (by norm_num))).mpr htn
      _ = 10 ^ q.den * q.den := Nat.mul_comm _ _
    have hlen : (natDigits (q.num.toNat * 10 ^ q.den / q.den)).length ≤ q.den :=
      natDigits_length_le q.den _ hden_pos hNlt
    have hfrac_len : (fracDigits q).length = q.den := by
      rw [fracDigits, List.length_append, List.length_replicate]
      omega
    have hfrac_val : digitsVal (fracDigits q) = q.num.toNat * 10 ^ q.den / q.den := by
      rw [fracDigits, digitsVal_replicate_zero, digitsVal_natDigits]
    obtain ⟨ht, hd⟩ := takeWhile_digits_append (fracDigits q) [')'] (fracDigits_all q)
      (fun c t h => by
        injection h with h1 _
        subst h1
        rfl)
    have h2' : parseNatChars (fracDigits q ++ [')']) =
        some (q.num.toNat * 10 ^ q.den / q.den, [')']) := by
      rw [parseNatChars, ht, hd, if_neg (fracDigits_ne_nil q), hfrac_val]
    obtain ⟨c, hc⟩ := hdvd
    have hcpos : 0 < c := by
      rcases Nat.eq_zero_or_pos c with h | h
      · subst h
        rw [Nat.mul_zero] at hc
        exact absurd hc (Nat.pos_iff_ne_zero.mp (Nat.pos_pow_of_pos _ (by norm_num)))
      · exact h
    have hNc : q.num.toNat * 10 ^ q.den / q.den = q.num.toNat * c := by
      rw [hc, Nat.mul_comm q.den c, ← Nat.mul_assoc]
      exact Nat.mul_div_cancel _ hden_pos
    have htonat : ((q.num.toNat : ℕ) : ℚ) = (q.num : ℚ) := by
      rw [← Int.cast_natCast, Int.toNat_of_nonneg hnum_pos.le]
    have hval : ((q.num.toNat * 10 ^ q.den / q.den : ℕ) : ℚ) / (10 : ℚ) ^ q.den = q := by
      have h10 : ((10 : ℚ)) ^ q.den = ((10 ^ q.den : ℕ) : ℚ) := by push_cast; ring
      rw [hNc, h10, hc]
      push_cast
      rw [htonat, mul_div_mul_right _ _ (by exact_mod_cast hcpos.ne' : (c : ℚ) ≠ 0)]
      exact Rat.num_div_den q
    have halpha : alphaChars q = '0' :: '.' :: fracDigits q := by
      rw [alphaChars, if_neg hq0, if_pos hpos]
    rw [halpha, List.cons_append, List.cons_append]
    simp only [parseFloatChars, parseNatChars_zero_dot, h2', ht, hfrac_len]
    rw [Nat.cast_zero, zero_add, hval]

theorem jsRound_limit_toNat_le (x : ℚ) : (jsRound (limit x 0 255)).toNat ≤ 255 := by
  have h1 : limit x 0 255 ≤ 255 := by
    rw [limit]
    exact max_le (min_le_right _ _) (by norm_num)
  have h2 : jsRound (limit x 0 255) ≤ 255 := by
    rw [jsRound]
    have h3 : limit x 0 255 + 1 / 2 < 256 := by linarith
    have hf : ⌊limit x 0 255 + 1 / 2⌋ < 256 := Int.floor_lt.mpr (by exact_mod_cast h3)
    omega
  omega

theorem jsRound_natCast (n : ℕ) : jsRound ((n : ℚ)) = n := by
  rw [jsRound]
  have h : ((n : ℚ)) + 1 / 2 = 1 / 2 + ((n : ℤ) : ℚ) := by push_cast; ring
  rw [h, Int.floor_add_int]
  have hhalf : ⌊(1 : ℚ) / 2⌋ = 0 := by
    rw [Int.floor_eq_zero_iff]
    constructor <;> norm_num
  rw [hhalf]
  omega

theorem channelChars_natCast (n : ℕ) (hn : n ≤ 255) :
    channelChars ((n : ℚ)) = natDigits n := by
  rw [channelChars]
  have hlim : limit ((n : ℚ)) 0 255 = (n : ℚ) := by
    rw [limit, min_eq_left (by exact_mod_cast hn), max_eq_left (by positivity)]
  rw [hlim, jsRound_natCast]
  simp

theorem colorToChars_roundtrip (c : Color)
    (hpr : limit c.a 0 1 = 0 ∨ 1 / 10 ^ 6 ≤ limit c.a 0 1)
    (hp : (limit c.a 0 1).den ∣ 10 ^ (limit c.a 0 1).den) :
    colorToChars (colorFromChars (colorToChars c)) = colorToChars c := by
  by_cases ha : 1 ≤ c.a
  · have hcs : colorToChars c = ['r', 'g', 'b', '('] ++ channelChars c.r ++ [',', ' '] ++
        channelChars c.g ++ [',', ' '] ++ channelChars c.b ++ [')'] := by
      rw [colorToChars, if_pos ha]
    have hparse : colorFromChars (colorToChars c) =
        ⟨((jsRound (limit c.r 0 255)).toNat : ℚ), ((jsRound (limit c.g 0 255)).toNat : ℚ),
          ((jsRound (limit c.b 0 255)).toNat : ℚ), 1⟩ := by
      rw [hcs, colorFromChars, parseRgbChars_print]
    rw [hparse, hcs, colorToChars, if_pos (le_refl (1 : ℚ))]
    rw [channelChars_natCast _ (jsRound_limit_toNat_le c.r),
      channelChars_natCast _ (jsRound_limit_toNat_le c.g),
      channelChars_natCast _ (jsRound_limit_toNat_le c.b)]
    simp only [channelChars]
  · have hlt : c.a < 1 := not_le.mp ha
    have hq1 : limit c.a 0 1 < 1 := by
      rw [limit]
      exact max_lt (lt_of_le_of_lt (min_le_left _ _) hlt) one_pos
    have hq0 : (0 : ℚ) ≤ limit c.a 0 1 := le_max_right _ _
    have hcs : colorToChars c = ['r', 'g', 'b', 'a', '('] ++ channelChars c.r ++ [',', ' '] ++
        channelChars c.g ++ [',', ' '] ++ channelChars c.b ++ [',', ' '] ++
        alphaChars (limit c.a 0 1) ++ [')'] := by
      rw [colorToChars, if_neg ha]
    have hfloat := parseFloatChars_alphaChars (limit c.a 0 1) hq0 hq1 hpr hp
    have hnone : parseRgbChars (['r', 'g', 'b', 'a', '('] ++ channelChars c.r ++ [',', ' '] ++
        channelChars c.g ++ [',', ' '] ++ channelChars c.b ++ [',', ' '] ++
        alphaChars (limit c.a 0 1) ++ [')']) = none := rfl
    have hparse : colorFromChars (colorToChars c) =
        ⟨((jsRound (limit c.r 0 255)).toNat : ℚ), ((jsRound (limit c.g 0 255)).toNat : ℚ),
          ((jsRound (limit c.b 0 255)).toNat : ℚ), limit c.a 0 1⟩ := by
      rw [hcs, colorFromChars, hnone, parseRgbaChars_print _ _ _ _ _ hfloat]
    rw [hparse, hcs, colorToChars, if_neg (not_le.mpr hq1)]
    rw [channelChars_natCast _ (jsRound_limit_toNat_le c.r),
      channelChars_natCast _ (jsRound_limit_toNat_le c.g),
      channelChars_natCast _ (jsRound_limit_toNat_le c.b)]
    have hlim : limit (limit c.a 0 1) 0 1 = limit c.a 0 1 := by
      rw [limit, min_eq_left hq1.le, max_eq_left hq0]
    rw [hlim]
    simp only [channelChars]

mutual
theorem snapRoundtripVal : ∀ v : SnapVal, goodSnapB v = true →
    snapEqB (deserializeSnap (serializeSnap v)) v = true
  | .num q, _ => by
      simp [serializeSnap, deserializeSnap, snapEqB]
  | .str s, _ => by
      simp [serializeSnap, deserializeSnap, snapEqB]
  | .color c, hg => by
      simp [goodSnapB] at hg
  | .arr l, hg => by
      rw [serializeSnap, deserializeSnap, snapEqB]
      exact snapRoundtripList l (by rwa [goodSnapB] at hg)
  | .obj fs, hg => by
      rw [serializeSnap, deserializeSnap, snapEqB]
      exact snapRoundtripFields fs (by rwa [goodSnapB] at hg)

theorem snapRoundtripList : ∀ l : SnapList, goodSnapListB l = true →
    snapListEqB (deserializeSnapList (serializeSnapList l)) l = true
  | .nil, _ => rfl
  | .cons v t, hg => by
      rw [goodSnapListB, Bool.and_eq_true] at hg
      rw [serializeSnapList, deserializeSnapList, snapListEqB, Bool.and_eq_true]
      exact ⟨snapRoundtripVal v hg.1, snapRoundtripList t hg.2⟩

theorem snapRoundtripFields : ∀ fs : SnapFields, goodSnapFieldsB fs = true →
    snapFieldsEqB (deserializeSnapFields (serializeSnapFields fs)) fs = true
  | .nil, _ => rfl
  | .cons key v t, hg => by
      rw [goodSnapFieldsB, Bool.and_eq_true] at hg
      rw [serializeSnapFields, deserializeSnapFields, snapFieldsEqB]
      rw [Bool.and_eq_true, Bool.and_eq_true]
      refine ⟨⟨by simp, ?_⟩, snapRoundtripFields t hg.2⟩
      by_cases hk : key = colorKey
      · rw [if_pos hk]
        have h1 := hg.1
        rw [if_pos hk] at h1
        obtain ⟨c, rfl, hpr⟩ : ∃ c, v = .color c ∧ printableColorB c = true := by
          cases v with
          | color c =>
              rw [goodColorSlotB] at h1
              exact ⟨c, rfl, h1⟩
          | num q => simp [goodColorSlotB] at h1
          | str s => simp [goodColorSlotB] at h1
          | arr l => simp [goodColorSlotB] at h1
          | obj fs2 => simp [goodColorSlotB] at h1
        rw [serializeSnap, reviveColor, snapEqB]
        rw [decide_eq_true_eq]
        rw [printableColorB, Bool.and_eq_true, Bool.or_eq_true,
          decide_eq_true_eq, decide_eq_true_eq, decide_eq_true_eq] at hpr
        exact colorToChars_roundtrip c hpr.1 hpr.2
      · rw [if_neg hk]
        have h1 := hg.1
        rw [if_neg hk] at h1
        exact snapRoundtripVal v h1
end

attribute [local semireducible] Rat.inv Rat.mul Rat.add Rat.sub

/-- The colour `rgba(0, 0, 0, 1e-7)`: its tiny alpha is printed by
JavaScript in exponential notation. -/
def colorC8x : Color := ⟨0, 0, 0, 1 / 10 ^ 7⟩

/-- A snapshot holding only the colour `colorC8x` at its `color`
property. -/
def snapC8x : SnapVal := .obj (.cons colorKey (.color colorC8x) .nil)

/-- Counterexample to claim C8 as stated: a snapshot whose colour has
alpha `10^-7` does not survive the round trip.  JavaScript prints that
alpha in exponential notation, so the colour serialises to
`rgba(0, 0, 0, 1e-7)`; the rgba regex alpha group `[0-9]+(?:\.[0-9]+)?`
(part_002 line 63) rejects `1e-7`, deserialisation falls through all four
regexes to the constructor default - opaque black - and the revived
colour (which would re-serialise as `rgb(0, 0, 0)`) is not textually
equal to the original, so the snapshots differ. -/
theorem claim_C8_counterexample :
    colorToChars colorC8x =
      ['r', 'g', 'b', 'a', '(', '0', ',', ' ', '0', ',', ' ', '0', ',', ' ',
        '1', 'e', '-', '7', ')'] ∧
    colorFromChars (colorToChars colorC8x) = ⟨0, 0, 0, 1⟩ ∧
    snapEqB (deserializeSnap (serializeSnap snapC8x)) snapC8x = false :=
  ⟨by decide, by decide, by decide⟩

/-- C8, amended: serialising a well-formed object snapshot to its
persisted JSON form (`JSON.stringify`, with `Color.toJSON` emitting the
CSS string) and deserialising it (`JSON.parse` followed by
`deserializeObjectSnapshot`) yields a snapshot equal to the original -
value equality for every numeric field, textual equality for every colour
field - provided every colour's effective alpha `limit(a, 0, 1)` is `0`
or at least `10^-6` (so JavaScript prints it positionally rather than in
the exponential notation the rgba regex rejects) and has a terminating
decimal expansion, as every JavaScript double in that range does.  As
stated, for an alpha in `(0, 10^-6)` the claim fails: see the
counterexample. -/
theorem claim_C8_amended (v : SnapVal) (hg : goodSnapB v = true) :
    snapEqB (deserializeSnap (serializeSnap v)) v = true :=
  snapRoundtripVal v hg

/-- A concrete object snapshot exercising the C8 round trip: nested
objects, an array, numeric fields, and two colour properties (one opaque,
one translucent with a fractional alpha). -/
def snapW : SnapVal :=
  .obj (.cons ['t', 'y', 'p', 'e'] (.str ['r', 'o', 'p', 'e'])
    (.cons ['f', 'o', 'r', 'c', 'e', 's']
      (.obj (.cons ['c', 'u', 'r', 'r', 'e', 'n', 't'] (.num (7 / 2)) .nil))
      (.cons ['v', 'i', 's', 'i', 'b', 'l', 'e']
        (.obj (.cons colorKey (.color ⟨10, 20, 30, 1 / 4⟩)
          (.cons ['r', 'a', 'd', 'i', 'u', 's'] (.num (1 / 10)) .nil)))
        (.cons ['d', 'a', 't', 'a']
          (.arr (.cons (.num 1) (.cons (.str ['x'])
            (.cons (.obj (.cons colorKey (.color ⟨0, 300, 5 / 2, 1⟩) .nil)) .nil))))
          .nil))))

/-- Witness for the amended C8 at the concrete snapshot `snapW`. -/
theorem claim_C8_amended_witness :
    goodSnapB snapW = true ∧ snapEqB (deserializeSnap (serializeSnap snapW)) snapW = true :=
  ⟨by decide, claim_C8_amended snapW (by decide)⟩

/-- The unit-length requirement that `addWorldBarrier` (part_004 lines
900-909) imposes on a barrier normal, stated exactly (the source compares
`normsq` with 1 up to `EPS`), on the raw coordinates. -/
def UnitVec (v : Vec) : Prop := v.x * v.x + v.y * v.y + v.z * v.z = 1

/-! ## The advance loop's per-iteration operation order (claim C2) -/

/-- The operations the advance loop can perform in one iteration. -/
inductive SimOp where
  | slidingUpdate
  | integrateBodies
  | remeshMerge
  | remeshSplit
  | barrierProjection
  | applyGravity
  | applyRopeForces
deriving DecidableEq

/-- The operations of one iteration of the advance loop, in the order the
source executes them, read off `FallSimulationLayout.precalculatePositions`
(src/resources/layout.js lines 1009-1013) and `Rope.timeStep` /
`Rope.postprocessTimeStep` (part_004 lines 273-289):
`GLOBALS.rope.timeStep(maxStep)` performs the per-deflection-point sliding
update (`segSlidingUpdate`) and the body integration (`Body.timeStep`) and
then immediately re-meshes via `postprocessTimeStep` (`passALoop`, then
`passBLoop`); only after `rope.timeStep` returns does the loop call
`ensureBarrierConstraints()`, followed by `rope.applyGravity` and
`rope.applyRopeForces` which prepare the forces the next iteration
integrates. -/
def advanceLoopIterationOps : List SimOp :=
  [.slidingUpdate, .integrateBodies, .remeshMerge, .remeshSplit,
   .barrierProjection, .applyGravity, .applyRopeForces]

/-- Counterexample to claim C2 as stated: in the advance loop's iteration
trace, barrier projection does *not* precede re-meshing - `Rope.timeStep`
has already run both re-meshing passes (inside `postprocessTimeStep`)
before `ensureBarrierConstraints` is called. -/
theorem claim_C2_counterexample :
    ¬ (advanceLoopIterationOps.indexOf .barrierProjection <
        advanceLoopIterationOps.indexOf .remeshMerge) ∧
    advanceLoopIterationOps.indexOf .remeshSplit <
      advanceLoopIterationOps.indexOf .barrierProjection := by
  decide

/-- Claim C2, amended: within every advance-loop iteration the operations
run in the order: friction/sliding update, explicit-Euler body
integration, re-meshing (merge pass, then split pass), *then* barrier
projection, then gravity and rope-force accumulation for the next
iteration (so the rope forces each iteration integrates were applied at
the end of the previous iteration, before any body moved).  In
particular, barrier projection is applied *after* re-meshing, not before. -/
theorem claim_C2_amended_order :
    advanceLoopIterationOps.indexOf .slidingUpdate <
      advanceLoopIterationOps.indexOf .integrateBodies ∧
    advanceLoopIterationOps.indexOf .integrateBodies <
      advanceLoopIterationOps.indexOf .remeshMerge ∧
    advanceLoopIterationOps.indexOf .remeshMerge <
      advanceLoopIterationOps.indexOf .remeshSplit ∧
    advanceLoopIterationOps.indexOf .remeshSplit <
      advanceLoopIterationOps.indexOf .barrierProjection ∧
    advanceLoopIterationOps.indexOf .barrierProjection <
      advanceLoopIterationOps.indexOf .applyGravity ∧
    advanceLoopIterationOps.indexOf .applyGravity <
      advanceLoopIterationOps.indexOf .applyRopeForces := by
  decide

/-! ## Claims C4, C5, C9 -/

/-- Claim C4: for every body with mass > 0 and every step of length Δt,
`Body.timeStep` updates the velocity to `(v + (F/m)·Δt)·velocityDamping^Δt`
(`F` the accumulated force) and then the position to `p + v_new·Δt`; for a
body with mass = 0, `timeStep` changes neither velocity nor position. -/
theorem claim_C4_body_timeStep (b : Body) (delta : ℝ) :
    (0 < b.mass →
      (b.timeStep delta).velocity =
        (b.velocity.plus ((b.appliedForces.times (1 / b.mass)).times delta)).times
          (b.velocityDamping ^ delta) ∧
      (b.timeStep delta).pos = b.pos.plus ((b.timeStep delta).velocity.times delta)) ∧
    (b.mass = 0 →
      (b.timeStep delta).velocity = b.velocity ∧ (b.timeStep delta).pos = b.pos) := by
  constructor
  · intro h
    simp only [Body.timeStep]
    rw [if_pos h, if_pos ⟨h, trivial⟩]
    exact ⟨rfl, rfl⟩
  · intro h
    have h' : ¬ (0 < b.mass) := by rw [h]; exact lt_irrefl 0
    simp only [Body.timeStep]
    rw [if_neg h']
    rw [if_neg (fun hc => h' hc.1)]
    exact ⟨rfl, rfl⟩

/-- Witness for C4 at concrete bodies: a unit-mass body follows the Euler
update and a fixed (mass 0) body keeps its position. -/
theorem claim_C4_body_timeStep_witness :
    (0 < (Body.mk' 0 0 0 1).mass ∧
      ((Body.mk' 0 0 0 1).timeStep 1).velocity =
        ((Body.mk' 0 0 0 1).velocity.plus
          (((Body.mk' 0 0 0 1).appliedForces.times (1 / (Body.mk' 0 0 0 1).mass)).times
            1)).times ((Body.mk' 0 0 0 1).velocityDamping ^ (1 : ℝ))) ∧
    ((Body.mk' 5 0 0 0).mass = 0 ∧ ((Body.mk' 5 0 0 0).timeStep 1).pos = (Body.mk' 5 0 0 0).pos) := by
  have h1 : 0 < (Body.mk' 0 0 0 1).mass := by norm_num [Body.mk']
  have h2 : (Body.mk' 5 0 0 0).mass = 0 := by norm_num [Body.mk']
  exact ⟨⟨h1, ((claim_C4_body_timeStep (Body.mk' 0 0 0 1) 1).1 h1).1⟩,
         ⟨h2, ((claim_C4_body_timeStep (Body.mk' 5 0 0 0) 1).2 h2).2⟩⟩

/-- Counterexample to claim C5 as stated: a movable body strictly on the
allowed side of the single barrier but moving into it is left untouched by
`ensureBarrierConstraints` (the projection branch is never entered), so its
post-run normal velocity component is still negative, not zero. -/
theorem claim_C5_counterexample :
    (Vec.dot ⟨1, 0, 0, false⟩
        { Body.mk' 1 0 0 1 with velocity := ⟨-1, 0, 0, false⟩ }.velocity < 0) ∧
    0 < { Body.mk' 1 0 0 1 with velocity := ⟨-1, 0, 0, false⟩ }.mass ∧
    Vec.dot ⟨1, 0, 0, false⟩
        ((ensureBarrierConstraints [⟨⟨1, 0, 0, false⟩, 0⟩]
          [{ Body.mk' 1 0 0 1 with velocity := ⟨-1, 0, 0, false⟩ }]).headD default).velocity
      ≠ 0 := by
  refine ⟨by norm_num [Vec.dot], by norm_num [Body.mk'], ?_⟩
  have hpos : Vec.dot ⟨1, 0, 0, false⟩ (Body.mk' 1 0 0 1).pos = 1 := by
    norm_num [Vec.dot, Body.mk']
  simp only [ensureBarrierConstraints, List.map, List.foldl, applyBarrierConstraint]
  rw [if_neg]
  · norm_num [Vec.dot]
  · simp only [Body.mk', Vec.dot]
    norm_num

/-- Claim C5, amended: for a barrier whose normal has unit length, the
projection step `applyBarrierConstraint` (the loop body of
`ensureBarrierConstraints`) always leaves the body with `n·p ≥ s`; if the
projection branch was entered (pre-state `n·p ≤ s`) and the pre-state
velocity pointed into the barrier (`n·v < 0`), the post-state velocity
satisfies `n·v = 0`; every velocity component orthogonal to `n` is
preserved.  For a world with a single barrier, `ensureBarrierConstraints`
applies exactly this step to every body. -/
theorem claim_C5_amended (bar : Barrier) (hunit : UnitVec bar.normal) (body : Body) :
    bar.shift ≤ bar.normal.dot (applyBarrierConstraint bar body).pos ∧
    (bar.normal.dot body.pos ≤ bar.shift → bar.normal.dot body.velocity < 0 →
      bar.normal.dot (applyBarrierConstraint bar body).velocity = 0) ∧
    (∀ t : Vec, bar.normal.dot t = 0 →
      (applyBarrierConstraint bar body).velocity.dot t = body.velocity.dot t) ∧
    (∀ bodies : List Body,
      ensureBarrierConstraints [bar] bodies = bodies.map (applyBarrierConstraint bar)) := by
  have hsq : bar.normal.dot bar.normal = 1 := hunit
  unfold applyBarrierConstraint
  by_cases hdist : bar.normal.dot body.pos ≤ bar.shift
  · rw [if_pos hdist]
    by_cases hvel : -(bar.normal.dot body.velocity) > 0
    · rw [if_pos hvel]
      refine ⟨?_, fun _ _ => ?_, fun t ht => ?_, fun bodies => rfl⟩
      · simp only [Vec.dot, Vec.plus, Vec.times] at *
        nlinarith [hsq]
      · simp only [Vec.dot, Vec.plus, Vec.times] at *
        nlinarith [hsq]
      · simp only [Vec.dot, Vec.plus, Vec.times] at *
        nlinarith [ht]
    · rw [if_neg hvel]
      refine ⟨?_, fun _ hv => ?_, fun t ht => ?_, fun bodies => rfl⟩
      · simp only [Vec.dot, Vec.plus, Vec.times] at *
        nlinarith [hsq]
      · exact absurd (by linarith : -(bar.normal.dot body.velocity) > 0) hvel
      · rfl
  · rw [if_neg hdist]
    exact ⟨le_of_lt (lt_of_not_le hdist), fun hp _ => absurd hp hdist,
      fun t _ => rfl, fun bodies => rfl⟩

/-- Witness for the amended C5 at a concrete barrier and body: the ground
barrier `y ≥ 0` projects a buried falling body up to the ground and zeroes
the vertical velocity while keeping the horizontal one. -/
theorem claim_C5_amended_witness :
    UnitVec (⟨0, 1, 0, false⟩ : Vec) ∧
    ((0 : ℝ) ≤ Vec.dot ⟨0, 1, 0, false⟩
      (applyBarrierConstraint ⟨⟨0, 1, 0, false⟩, 0⟩
        { Body.mk' 0 (-2) 0 1 with velocity := ⟨3, -5, 0, false⟩ }).pos) ∧
    Vec.dot ⟨0, 1, 0, false⟩
      (applyBarrierConstraint ⟨⟨0, 1, 0, false⟩, 0⟩
        { Body.mk' 0 (-2) 0 1 with velocity := ⟨3, -5, 0, false⟩ }).velocity = 0 := by
  have hunit : UnitVec (⟨0, 1, 0, false⟩ : Vec) := by norm_num [UnitVec]
  have h := claim_C5_amended ⟨⟨0, 1, 0, false⟩, 0⟩ hunit
    { Body.mk' 0 (-2) 0 1 with velocity := ⟨3, -5, 0, false⟩ }
  refine ⟨hunit, h.1, h.2.1 ?_ ?_⟩
  · norm_num [Vec.dot, Body.mk']
  · norm_num [Vec.dot]

/-- Claim C9: `V.normalize` is total at the zero vector - it returns a
fresh zero vector without dividing by the zero norm - and on every nonzero
(unflagged) vector it returns a new scaled vector, leaving the receiver
untouched (all `V` operations of the source return `new V(...)`; the
embedding is pure, so receivers are never modified). -/
theorem claim_C9_normalize_total :
    (∀ flag : Bool, Vec.normalize ⟨0, 0, 0, flag⟩ = ⟨0, 0, 0, false⟩) ∧
    (∀ v : Vec, ¬(v.x = 0 ∧ v.y = 0 ∧ v.z = 0) → v.isNormalized = false →
      Vec.normalize v =
        ⟨v.x * (1 / v.norm), v.y * (1 / v.norm), v.z * (1 / v.norm), true⟩) := by
  constructor
  · intro flag
    simp [Vec.normalize, Vec.copy]
  · intro v hnz hflag
    unfold Vec.normalize
    rw [if_neg]
    · rfl
    · rintro (h | h)
      · exact hnz h
      · rw [hflag] at h; exact Bool.false_ne_true h

/-- Witness for C9 at the concrete nonzero vector (3, 4, 0): its norm is 5
and `normalize` scales it by 1/5. -/
theorem claim_C9_normalize_total_witness :
    ¬(((3 : ℝ) = 0) ∧ ((4 : ℝ) = 0) ∧ ((0 : ℝ) = 0)) ∧
    Vec.normalize ⟨3, 4, 0, false⟩ = ⟨3 * (1 / 5), 4 * (1 / 5), 0 * (1 / 5), true⟩ := by
  have hnz : ¬((Vec.mk 3 4 0 false).x = 0 ∧ (Vec.mk 3 4 0 false).y = 0 ∧
      (Vec.mk 3 4 0 false).z = 0) := by norm_num
  have h := claim_C9_normalize_total.2 ⟨3, 4, 0, false⟩ hnz rfl
  have hnorm : (Vec.mk 3 4 0 false).norm = 5 := by
    unfold Vec.norm
    rw [if_neg (by simp)]
    rw [show (3 : ℝ) * 3 + 4 * 4 + 0 * 0 = 5 ^ 2 by norm_num]
    exact Real.sqrt_sq (by norm_num)
  rw [hnorm] at h
  exact ⟨by norm_num, h⟩

end ClimbSim
